import Mathlib

/-!
Verification of `rtc_32bit.hpp`: 64-bit timestamps on top of a 32-bit RTC counter.

A shallow embedding of `rtc_32bit.hpp` and a verification of its calendar
arithmetic and of the offset scheme.

Conventions of the embedding

* `uint64_t` values are natural numbers; every operation that can leave the
  range is followed by `% 2 ^ 64` (`% 2 ^ 32` for `uint32_t` and for
  `unsigned long`, which is 32 bits wide on the 32-bit CH32 targets this header
  is written for).
* `int` values are integers. Conversions to an unsigned type are `toU64` and
  `toU32`; `toI32` is the conversion to a 32-bit `int`. Signed arithmetic
  that could leave the `int` range (formally undefined in C++) is wrapped with
  `toI32`, which is what the target does; every theorem below is stated where
  no such wrap happens, but the termination theorem, which holds with it.
* The unbounded `while (1)` loop of `timestamp_to_datetime` takes a fuel
  argument and answers `none` when the fuel runs out; the function supplies
  `days + 1` as fuel and the theorems show that it produces a result.
-/

namespace Rtc32

/-! ## Machine integers -/

/-- Conversion of an `int` to `uint64_t`. -/
def toU64 (x : Int) : Nat := (x % 2 ^ 64).toNat

/-- Conversion of an `int` to `uint32_t` (and to the 32-bit `unsigned long`). -/
def toU32 (x : Int) : Nat := (x % 2 ^ 32).toNat

/-- Conversion to a 32-bit twos-complement `int`. -/
def toI32 (x : Int) : Int := (x + 2 ^ 31) % 2 ^ 32 - 2 ^ 31

/-- Conversion of an `int` to `uint16_t`. -/
def toU16 (x : Int) : Nat := (x % 2 ^ 16).toNat

/-- Conversion of an `int` to `uint8_t`. -/
def toU8 (x : Int) : Nat := (x % 2 ^ 8).toNat

/-! ## Calendar converter -/

/-- The constant `RTC_EPOCH_OFFSET`: 2025-01-01 00:00:00 UTC. -/
def RTC_EPOCH_OFFSET : Nat := 1735689600

/-- The table `_days_in_month[12]`, read at index `i`. An index outside
`0..11` is outside the array in the source; the model reads `0` there, and
such a read is used by no theorem. -/
def _days_in_month (i : Int) : Nat :=
  if 0 ≤ i then [31, 28, 31, 30, 31, 30, 31, 31, 30, 31, 30, 31].getD i.toNat 0 else 0

/-- The function `_is_leap`: `(year % 4 == 0 && year % 100 != 0) || (year % 400 == 0)`,
with the truncating remainder of C++. -/
def _is_leap (year : Int) : Bool :=
  (Int.tmod year 4 == 0 && Int.tmod year 100 != 0) || (Int.tmod year 400 == 0)

/-- The first loop of `_days_since_1970`:
`for (int y = 1970; y < year; y++) days += _is_leap(y) ? 366 : 365;`
entered with the loop variable at `y`. It runs `year - 1970` times, which is
the fuel its caller gives it. -/
def yearSumLoop (year : Int) : Nat → Int → Nat → Nat
  | 0, _, days => days
  | fuel + 1, y, days =>
    if y < year then
      yearSumLoop year fuel (y + 1) ((days + (if _is_leap y then 366 else 365)) % 2 ^ 64)
    else days

/-- The second loop of `_days_since_1970`:
`for (int m = 1; m < month; m++) days += _days_in_month[m-1] + (m==2 && _is_leap(year) ? 1 : 0);`
entered with the loop variable at `m`. -/
def monthSumLoop (year month : Int) : Nat → Int → Nat → Nat
  | 0, _, days => days
  | fuel + 1, m, days =>
    if m < month then
      monthSumLoop year month fuel (m + 1)
        ((days + (_days_in_month (m - 1) + (if m == 2 && _is_leap year then 1 else 0))) % 2 ^ 64)
    else days

/-- The function `_days_since_1970`. -/
def _days_since_1970 (year month day : Int) : Nat :=
  let days := yearSumLoop year (year - 1970).toNat 1970 0
  let days := monthSumLoop year month (month - 1).toNat 1 days
  (days + toU64 (toI32 (day - 1))) % 2 ^ 64

/-- The function `datetime_to_timestamp`:
`days * 86400UL + hour * 3600UL + minute * 60UL + second`, the first product
and the sums in `uint64_t`, the other two products in `unsigned long`. -/
def datetime_to_timestamp (year month day hour minute second : Int) : Nat :=
  let days := _days_since_1970 year month day
  ((((days * 86400) % 2 ^ 64 + (toU32 hour * 3600) % 2 ^ 32) % 2 ^ 64
      + (toU32 minute * 60) % 2 ^ 32) % 2 ^ 64
    + toU64 second) % 2 ^ 64

/-- The six output parameters of `timestamp_to_datetime`. -/
structure DateTime where
  year : Int
  month : Int
  day : Int
  hour : Int
  minute : Int
  second : Int
  deriving DecidableEq, Repr

/-- The year loop of `timestamp_to_datetime`:
`while (1) { d = _is_leap(y) ? 366 : 365; if (days >= d) { days -= d; y++; } else break; }`
It answers the pair `(y, days)` at the `break`, and `none` when the fuel is used up first. -/
def yearLoop : Nat → Int → Nat → Option (Int × Nat)
  | 0, _, _ => none
  | fuel + 1, y, days =>
    let d : Nat := if _is_leap y then 366 else 365
    if days ≥ d then yearLoop fuel (toI32 (y + 1)) (days - d) else some (y, days)

/-- The month loop of `timestamp_to_datetime`:
`for (; m <= 12; m++) { dim = _days_in_month[m-1] + (m==2 && _is_leap(y) ? 1 : 0); if (days < dim) break; days -= dim; }`
It answers the pair `(m, days)` on leaving the loop. Started at `m = 1` it
runs at most 12 times and then fails its guard. -/
def monthLoop (y : Int) : Nat → Int → Nat → Option (Int × Nat)
  | 0, _, _ => none
  | fuel + 1, m, days =>
    if m ≤ 12 then
      let dim : Nat := (_days_in_month (m - 1) + (if m == 2 && _is_leap y then 1 else 0)) % 2 ^ 32
      if days < dim then some (m, days) else monthLoop y fuel (m + 1) (days - dim)
    else some (m, days)

/-- The function `timestamp_to_datetime`. -/
def timestamp_to_datetime (ts : Nat) : Option DateTime :=
  let days := ts / 86400
  let secs := ts % 86400
  let hour := toI32 (secs / 3600 : Nat)
  let secs := secs % 3600
  let minute := toI32 (secs / 60 : Nat)
  let second := toI32 (secs % 60 : Nat)
  match yearLoop (days + 1) 1970 days with
  | none => none
  | some (y, days) =>
    match monthLoop y 13 1 days with
    | none => none
    | some (m, days) =>
      some { year := y, month := m, day := toI32 ((days + 1) % 2 ^ 64 : Nat),
             hour := hour, minute := minute, second := second }

/-! ## Epoch extender -/

/-- The state the header reads and writes: the registers of the RTC
peripheral it touches (the 32-bit counter, the prescaler, the backup register
`BKP->DATAR1` that holds the initialisation marker) and the global
`offset_for_32bit`. -/
structure RtcState where
  counter : Nat
  prescaler : Nat
  marker : Nat
  offset_for_32bit : Nat
  deriving DecidableEq, Repr

/-- Modelled from the spec: the vendor routine `RTC_GetCounter`, the
`counter_read() → uint32` of the peripheral. -/
def RTC_GetCounter (s : RtcState) : Nat := s.counter % 2 ^ 32

/-- Modelled from the spec: the vendor routine `RTC_SetCounter(uint32_t)`, the
`counter_write(uint32)` of the peripheral. The argument is converted to `uint32_t`
at the call. -/
def RTC_SetCounter (v : Nat) (s : RtcState) : RtcState := { s with counter := v % 2 ^ 32 }

/-- Modelled from the spec: the vendor routine `RTC_SetPrescaler`, the
`set_prescaler(value)` of the peripheral. -/
def RTC_SetPrescaler (v : Nat) (s : RtcState) : RtcState := { s with prescaler := v % 2 ^ 32 }

/-- Modelled from the spec: one increment of the hardware counter, a 32-bit
seconds register that wraps at its maximum representable value. -/
def tick (s : RtcState) : RtcState := { s with counter := (s.counter + 1) % 2 ^ 32 }

/-- Modelled from the spec: `n` increments of the hardware counter. -/
def ticks : Nat → RtcState → RtcState
  | 0, s => s
  | n + 1, s => ticks n (tick s)

/-- The function `rtc_init`, on the modelled registers: a cold start (marker
not `0xA5A5`) sets the prescaler to 32767, the counter to 0 and the marker; a
warm start only waits for synchronisation. -/
def rtc_init (s : RtcState) : RtcState :=
  if s.marker ≠ 0xA5A5 then
    let s := RTC_SetPrescaler 32767 s
    let s := RTC_SetCounter 0 s
    { s with marker := 0xA5A5 }
  else s

/-- The function `rtc_get_epoch`: `static_cast<uint64_t>(counter) + offset_for_32bit`. -/
def rtc_get_epoch (s : RtcState) : Nat := (RTC_GetCounter s + s.offset_for_32bit) % 2 ^ 64

/-- The function `calc_time_offset`: the value it returns and the state it leaves. -/
def calc_time_offset (year : Int) (s : RtcState) : Nat × RtcState :=
  let s := { s with offset_for_32bit := datetime_to_timestamp year 1 1 0 0 0 }
  (s.offset_for_32bit, s)

/-- The function `rtc_setTime`: the value it returns and the state it leaves.
`houroffset * 3600` is a product of two `int`s, converted to `uint64_t` by `+=`;
`epoch - offset_for_32bit` is a `uint64_t` difference. -/
def rtc_setTime (year month day hour min sec houroffset : Int) (s : RtcState) : Nat × RtcState :=
  let epoch : Nat := datetime_to_timestamp year month day hour min sec
  let s := (calc_time_offset year s).2
  let epoch : Nat := (epoch + toU64 (toI32 (houroffset * 3600))) % 2 ^ 64
  let s := RTC_SetCounter (toU64 ((epoch : Int) - (s.offset_for_32bit : Int))) s
  (epoch, s)

/-- The function `rtc_get_hour`: the hour of `rtc_get_epoch()`, cast to `uint16_t`. -/
def rtc_get_hour (s : RtcState) : Option Nat :=
  (timestamp_to_datetime (rtc_get_epoch s)).map (fun c => toU16 c.hour)

/-- The function `rtc_get_minute`. -/
def rtc_get_minute (s : RtcState) : Option Nat :=
  (timestamp_to_datetime (rtc_get_epoch s)).map (fun c => toU16 c.minute)

/-- The function `rtc_get_second`. -/
def rtc_get_second (s : RtcState) : Option Nat :=
  (timestamp_to_datetime (rtc_get_epoch s)).map (fun c => toU16 c.second)

/-- The function `rtc_get_year`. -/
def rtc_get_year (s : RtcState) : Option Nat :=
  (timestamp_to_datetime (rtc_get_epoch s)).map (fun c => toU16 c.year)

/-- The function `rtc_get_month`: the month of `rtc_get_epoch()`, cast to `uint8_t`. -/
def rtc_get_month (s : RtcState) : Option Nat :=
  (timestamp_to_datetime (rtc_get_epoch s)).map (fun c => toU8 c.month)

/-- The function `rtc_get_day`. -/
def rtc_get_day (s : RtcState) : Option Nat :=
  (timestamp_to_datetime (rtc_get_epoch s)).map (fun c => toU8 c.day)

/-- The public operations of the header, with their arguments. -/
inductive Operation where
  | rtc_init
  | calc_time_offset (year : Int)
  | rtc_get_epoch
  | timestamp_to_string (ts : Nat)
  | rtc_get_hour
  | rtc_get_minute
  | rtc_get_second
  | rtc_get_year
  | rtc_get_month
  | rtc_get_day
  | rtc_setTime (year month day hour min sec houroffset : Int)
  deriving DecidableEq

/-- The state an operation leaves. `rtc_get_epoch`, `timestamp_to_string` and
the six accessors contain no assignment to `offset_for_32bit` and call no
writing routine of the peripheral (`timestamp_to_string` writes only the two
buffers of its caller), so they leave the state as it is. -/
def runOperation : Operation → RtcState → RtcState
  | .rtc_init, s => rtc_init s
  | .calc_time_offset year, s => (calc_time_offset year s).2
  | .rtc_setTime year month day hour min sec houroffset, s =>
    (rtc_setTime year month day hour min sec houroffset s).2
  | .rtc_get_epoch, s => s
  | .timestamp_to_string _, s => s
  | .rtc_get_hour, s => s
  | .rtc_get_minute, s => s
  | .rtc_get_second, s => s
  | .rtc_get_year, s => s
  | .rtc_get_month, s => s
  | .rtc_get_day, s => s

/-- The indices at which the month loop of `timestamp_to_datetime` reads the
table `_days_in_month`: one read, at `m - 1`, in every pass of the loop body. -/
def monthLoopReads (y : Int) : Nat → Int → Nat → List Int
  | 0, _, _ => []
  | fuel + 1, m, days =>
    if m ≤ 12 then
      let dim : Nat := (_days_in_month (m - 1) + (if m == 2 && _is_leap y then 1 else 0)) % 2 ^ 32
      if days < dim then [m - 1] else (m - 1) :: monthLoopReads y fuel (m + 1) (days - dim)
    else []

/-! ## Calendar vocabulary of the specification

The Gregorian rule and the month lengths in the words of the specification,
independent of the table and of the loops above. -/

/-- A year is leap if divisible by 4 and (not divisible by 100 or divisible by 400). -/
def gregorianLeap (y : Int) : Bool := decide (y % 4 = 0 ∧ (y % 100 ≠ 0 ∨ y % 400 = 0))

/-- Number of days of year `y`. -/
def yearLength (y : Int) : Nat := if gregorianLeap y then 366 else 365

/-- Number of days from 1970-01-01 to the first of January of year `1970 + n`. -/
def daysBeforeYear : Nat → Nat
  | 0 => 0
  | n + 1 => daysBeforeYear n + yearLength (1970 + (n : Int))

/-- Number of days of month `m` of year `y`: February has 29 days exactly in
leap years. -/
def daysInMonth (y m : Int) : Nat :=
  if m = 2 then (if gregorianLeap y then 29 else 28)
  else if m = 4 ∨ m = 6 ∨ m = 9 ∨ m = 11 then 30
  else 31

/-- Number of days of year `y` before the first of month `m` (`1 ≤ m ≤ 12`). -/
def daysBeforeMonth (y : Int) (m : Nat) : Nat :=
  [0, 31, 59, 90, 120, 151, 181, 212, 243, 273, 304, 334].getD (m - 1) 0
    + (if 2 < m ∧ gregorianLeap y then 1 else 0)

/-- The constant-time Gregorian day count of the first of January of year `y`:
`365 * (y - 1970) + (⌊(y-1)/4⌋ - ⌊(y-1)/100⌋ + ⌊(y-1)/400⌋) - 477`. -/
def daysSince1970ClosedForm (y : Int) : Int :=
  365 * (y - 1970) + ((y - 1) / 4 - (y - 1) / 100 + (y - 1) / 400) - 477

/-- A civil date and time in calendar range, from 1970 on. -/
def ValidDateTime (c : DateTime) : Prop :=
  1970 ≤ c.year ∧ 1 ≤ c.month ∧ c.month ≤ 12 ∧
  1 ≤ c.day ∧ c.day ≤ daysInMonth c.year c.month ∧
  0 ≤ c.hour ∧ c.hour ≤ 23 ∧ 0 ≤ c.minute ∧ c.minute ≤ 59 ∧ 0 ≤ c.second ∧ c.second ≤ 59

/-- The order of two civil date/times, fields compared in the order
year, month, day, hour, minute, second. -/
def lexLe (a b : DateTime) : Prop :=
  a.year < b.year ∨ (a.year = b.year ∧
  (a.month < b.month ∨ (a.month = b.month ∧
  (a.day < b.day ∨ (a.day = b.day ∧
  (a.hour < b.hour ∨ (a.hour = b.hour ∧
  (a.minute < b.minute ∨ (a.minute = b.minute ∧ a.second ≤ b.second)))))))))

/-! ## Lemmas: machine integers and the leap rule -/

theorem toI32_of_range (x : Int) (h1 : -2 ^ 31 ≤ x) (h2 : x < 2 ^ 31) : toI32 x = x := by
  unfold toI32; omega

theorem toU64_of_nat (n : Nat) (h : n < 2 ^ 64) : toU64 (n : Int) = n := by
  unfold toU64; omega

theorem toU32_of_nat (n : Nat) (h : n < 2 ^ 32) : toU32 (n : Int) = n := by
  unfold toU32; omega

theorem tmod_eq_zero_iff (y k : Int) : Int.tmod y k = 0 ↔ y % k = 0 :=
  ⟨fun h => Int.emod_eq_zero_of_dvd (Int.dvd_of_tmod_eq_zero h),
   fun h => Int.tmod_eq_zero_of_dvd (Int.dvd_of_emod_eq_zero h)⟩

/-- The leap test of the source is the Gregorian rule, for every `int`. -/
theorem is_leap_eq (y : Int) : _is_leap y = gregorianLeap y := by
  unfold _is_leap gregorianLeap
  have h4 := tmod_eq_zero_iff y 4
  have h100 := tmod_eq_zero_iff y 100
  have h400 := tmod_eq_zero_iff y 400
  rw [Bool.eq_iff_iff]
  simp only [Bool.or_eq_true, Bool.and_eq_true, beq_iff_eq, bne_iff_ne, ne_eq,
    decide_eq_true_eq, h4, h100, h400]
  omega

theorem yearLength_pos (y : Int) : 365 ≤ yearLength y ∧ yearLength y ≤ 366 := by
  unfold yearLength; split <;> omega

theorem daysBeforeYear_le (n : Nat) : daysBeforeYear n ≤ 366 * n := by
  induction n with
  | zero => simp [daysBeforeYear]
  | succ n ih =>
    have := yearLength_pos (1970 + (n : Int))
    simp only [daysBeforeYear]; omega

theorem daysBeforeYear_ge (n : Nat) : 365 * n ≤ daysBeforeYear n := by
  induction n with
  | zero => simp [daysBeforeYear]
  | succ n ih =>
    have := yearLength_pos (1970 + (n : Int))
    simp only [daysBeforeYear]; omega

theorem daysBeforeYear_mono {i j : Nat} (h : i ≤ j) : daysBeforeYear i ≤ daysBeforeYear j := by
  induction j with
  | zero => have : i = 0 := by omega
            subst this; exact le_refl _
  | succ j ih =>
    rcases Nat.lt_or_ge i (j + 1) with hlt | hge
    · have := ih (by omega)
      simp only [daysBeforeYear]; omega
    · have : i = j + 1 := by omega
      subst this; exact le_refl _

/-! ## Lemmas: the forward conversion -/

theorem yearSumLoop_eq (d : Nat) : ∀ (k : Nat) (year : Int), year = 1970 + (k : Int) + d →
    k + d ≤ 2 ^ 32 →
    yearSumLoop year d (1970 + (k : Int)) (daysBeforeYear k) = daysBeforeYear (k + d) := by
  induction d with
  | zero => intro k year _ _; simp [yearSumLoop]
  | succ d ih =>
    intro k year hy hb
    have hlt : (1970 : Int) + k < year := by omega
    have hle := daysBeforeYear_le k
    have hlen := yearLength_pos (1970 + (k : Int))
    have hstep : (daysBeforeYear k + yearLength (1970 + (k : Int))) % 2 ^ 64
        = daysBeforeYear (k + 1) := by
      simp only [daysBeforeYear]; omega
    have hnext : (1970 : Int) + k + 1 = 1970 + ((k + 1 : Nat) : Int) := by push_cast; ring
    have hfold : (if _is_leap (1970 + (k : Int)) then 366 else 365) = yearLength (1970 + (k : Int)) := by
      rw [is_leap_eq]; rfl
    rw [yearSumLoop, if_pos hlt, hfold, hstep, hnext, ih (k + 1) year (by push_cast; omega) (by omega)]
    congr 1; omega

theorem monthSumLoop_eq (year : Int) (m : Nat) (acc : Nat) (hm1 : 1 ≤ m) (hm2 : m ≤ 12)
    (hacc : acc < 2 ^ 63) :
    monthSumLoop year (m : Int) ((m : Int) - 1).toNat 1 acc = acc + daysBeforeMonth year m := by
  interval_cases m <;>
    cases hl : gregorianLeap year <;>
    simp [monthSumLoop, _days_in_month, is_leap_eq, daysBeforeMonth, hl] <;> omega

theorem daysBeforeMonth_le (y : Int) (m : Nat) : daysBeforeMonth y m ≤ 335 := by
  unfold daysBeforeMonth
  have h : [0, 31, 59, 90, 120, 151, 181, 212, 243, 273, 304, 334].getD (m - 1) 0 ≤ 334 := by
    rcases Nat.lt_or_ge (m - 1) 12 with h | h
    · interval_cases (m - 1) <;> simp
    · rw [List.getD_eq_default _ _ (by simpa using h)]; omega
  split <;> omega

theorem days_since_1970_eq (n m d : Nat) (hn : 1970 + n < 2 ^ 31) (hm1 : 1 ≤ m) (hm2 : m ≤ 12)
    (hd1 : 1 ≤ d) (hd2 : d < 2 ^ 31) :
    _days_since_1970 (1970 + (n : Int)) m d
      = daysBeforeYear n + daysBeforeMonth (1970 + (n : Int)) m + (d - 1) := by
  have hy := yearSumLoop_eq n 0 (1970 + (n : Int)) (by simp) (by omega)
  simp only [Nat.cast_zero, add_zero, zero_add, daysBeforeYear] at hy
  have hle := daysBeforeYear_le n
  have hmo := daysBeforeMonth_le (1970 + (n : Int)) m
  have hday : toU64 (toI32 ((d : Int) - 1)) = d - 1 := by
    rw [toI32_of_range _ (by omega) (by omega)]
    have : ((d : Int) - 1) = ((d - 1 : Nat) : Int) := by omega
    rw [this, toU64_of_nat _ (by omega)]
  unfold _days_since_1970
  have hfuel : ((1970 : Int) + n - 1970).toNat = n := by omega
  simp only [hfuel, hy, monthSumLoop_eq (1970 + (n : Int)) m (daysBeforeYear n) hm1 hm2 (by omega),
    hday]
  omega

theorem datetime_to_timestamp_eq (n m d h mi s : Nat) (hn : 1970 + n < 2 ^ 31)
    (hm1 : 1 ≤ m) (hm2 : m ≤ 12) (hd1 : 1 ≤ d) (hd2 : d < 2 ^ 31)
    (hh : h * 3600 < 2 ^ 32) (hmi : mi * 60 < 2 ^ 32) (hs : s < 2 ^ 31) :
    datetime_to_timestamp (1970 + (n : Int)) m d h mi s
      = (daysBeforeYear n + daysBeforeMonth (1970 + (n : Int)) m + (d - 1)) * 86400
        + h * 3600 + mi * 60 + s := by
  have hle := daysBeforeYear_le n
  have hmo := daysBeforeMonth_le (1970 + (n : Int)) m
  unfold datetime_to_timestamp
  simp only [days_since_1970_eq n m d hn hm1 hm2 hd1 hd2, toU32_of_nat h (by omega),
    toU32_of_nat mi (by omega), toU64_of_nat s (by omega)]
  have hDb : daysBeforeYear n + daysBeforeMonth (1970 + (n : Int)) m + (d - 1) < 2 ^ 40 := by
    omega
  generalize daysBeforeYear n + daysBeforeMonth (1970 + (n : Int)) m + (d - 1) = D at *
  have hD : D * 86400 < 2 ^ 62 := by omega
  rw [Nat.mod_eq_of_lt (show D * 86400 < 2 ^ 64 by omega), Nat.mod_eq_of_lt hh,
    Nat.mod_eq_of_lt hmi,
    Nat.mod_eq_of_lt (show D * 86400 + h * 3600 < 2 ^ 64 by omega),
    Nat.mod_eq_of_lt (show D * 86400 + h * 3600 + mi * 60 < 2 ^ 64 by omega),
    Nat.mod_eq_of_lt (show D * 86400 + h * 3600 + mi * 60 + s < 2 ^ 64 by omega)]

/-! ## Lemmas: the inverse conversion -/

theorem year_fold (y : Int) : (if _is_leap y then 366 else 365) = yearLength y := by
  rw [is_leap_eq]; rfl

theorem year_step_arith (days a b w c r : Nat) (hsum : days + a = c + r) (hmono : b ≤ c)
    (hk : b = a + w) : w ≤ days ∧ days - w + b = c + r := by
  omega

theorem yearLoop_eq (d : Nat) : ∀ (k fuel days r : Nat), d < fuel → 1970 + k + d < 2 ^ 31 →
    days + daysBeforeYear k = daysBeforeYear (k + d) + r →
    r < yearLength (1970 + ((k + d : Nat) : Int)) →
    yearLoop fuel (1970 + (k : Int)) days = some (1970 + ((k + d : Nat) : Int), r) := by
  induction d with
  | zero =>
    intro k fuel days r hf _ hsum hr
    obtain ⟨f, rfl⟩ : ∃ f, fuel = f + 1 := ⟨fuel - 1, by omega⟩
    have hdays : days = r := by
      rw [Nat.add_zero] at hsum; omega
    subst hdays
    rw [Nat.add_zero] at hr
    rw [yearLoop]
    simp only [year_fold, Nat.add_zero]
    rw [if_neg (Nat.not_le.mpr hr)]
  | succ d ih =>
    intro k fuel days r hf hb
    obtain ⟨f, rfl⟩ : ∃ f, fuel = f + 1 := ⟨fuel - 1, by omega⟩
    have hf2 : d < f := by omega
    have hb2 : 1970 + (k + 1) + d < 2 ^ 31 := by omega
    have hnext : toI32 ((1970 : Int) + k + 1) = 1970 + ((k + 1 : Nat) : Int) := by
      rw [toI32_of_range _ (by omega) (by omega)]; push_cast; ring
    have hidx : k + (d + 1) = k + 1 + d := by omega
    intro hsum hr
    have hmono : daysBeforeYear (k + 1) ≤ daysBeforeYear (k + (d + 1)) :=
      daysBeforeYear_mono (by rw [hidx]; exact Nat.le_add_right _ _)
    have hk1 : daysBeforeYear (k + 1) = daysBeforeYear k + yearLength (1970 + (k : Int)) := rfl
    obtain ⟨hge, hrest⟩ := year_step_arith _ _ _ _ _ _ hsum hmono hk1
    rw [yearLoop]
    simp only [year_fold]
    rw [if_pos hge, hnext, hidx]
    refine ih (k + 1) f (days - yearLength (1970 + (k : Int))) r hf2 hb2 ?_ ?_
    · rw [← hidx]; exact hrest
    · rw [← hidx]; exact hr

theorem year_decomposition (D : Nat) :
    ∃ n r, daysBeforeYear n + r = D ∧ r < yearLength (1970 + (n : Int)) := by
  induction D with
  | zero =>
    have h := yearLength_pos (1970 + ((0 : Nat) : Int))
    exact ⟨0, 0, rfl, by omega⟩
  | succ D ih =>
    obtain ⟨n, r, hsum, hr⟩ := ih
    by_cases h : r + 1 < yearLength (1970 + (n : Int))
    · exact ⟨n, r + 1, by omega, h⟩
    · have hpos := yearLength_pos (1970 + ((n + 1 : Nat) : Int))
      have hk : daysBeforeYear (n + 1) = daysBeforeYear n + yearLength (1970 + (n : Int)) := rfl
      refine ⟨n + 1, 0, ?_, by clear hr h hk; omega⟩
      clear hpos; omega

theorem month_length_table (y : Int) (m : Nat) (hm1 : 1 ≤ m) (hm2 : m ≤ 12) :
    (_days_in_month ((m : Int) - 1) + (if ((m : Int) == 2 && _is_leap y) then 1 else 0)) % 2 ^ 32
      = daysInMonth y m := by
  rw [is_leap_eq]
  interval_cases m <;> cases hl : gregorianLeap y <;> simp only [daysInMonth, hl] <;> rfl

theorem daysBeforeMonth_succ (y : Int) (m : Nat) (hm1 : 1 ≤ m) (hm2 : m ≤ 11) :
    daysBeforeMonth y (m + 1) = daysBeforeMonth y m + daysInMonth y m := by
  interval_cases m <;> cases hl : gregorianLeap y <;> simp only [daysInMonth, daysBeforeMonth, hl] <;> rfl

theorem daysBeforeMonth_thirteen (y : Int) :
    daysBeforeMonth y 12 + daysInMonth y 12 = yearLength y := by
  cases hl : gregorianLeap y <;> simp only [daysInMonth, daysBeforeMonth, yearLength, hl] <;> rfl


theorem daysBeforeMonth_mono (y : Int) (i j : Nat) (hi : 1 ≤ i) (hij : i ≤ j) (hj : j ≤ 12) :
    daysBeforeMonth y i ≤ daysBeforeMonth y j := by
  induction j with
  | zero => omega
  | succ j ih =>
    rcases Nat.lt_or_ge i (j + 1) with h | h
    · have h1 := ih (by omega) (by omega)
      have h2 := daysBeforeMonth_succ y j (by omega) (by omega)
      exact le_trans h1 (by rw [h2]; exact Nat.le_add_right _ _)
    · have : i = j + 1 := by omega
      subst this; exact le_refl _

theorem monthLoop_eq (y : Int) (d : Nat) : ∀ (k fuel days r : Nat), d < fuel → 1 ≤ k →
    k + d ≤ 12 → days + daysBeforeMonth y k = daysBeforeMonth y (k + d) + r →
    r < daysInMonth y ((k + d : Nat) : Int) →
    monthLoop y fuel (k : Int) days = some (((k + d : Nat) : Int), r) := by
  induction d with
  | zero =>
    intro k fuel days r hf hk1 hk2 hsum hr
    obtain ⟨f, rfl⟩ : ∃ f, fuel = f + 1 := ⟨fuel - 1, by omega⟩
    have hdays : days = r := by
      rw [Nat.add_zero] at hsum; omega
    subst hdays
    rw [Nat.add_zero] at hr hk2
    have hguard : (k : Int) ≤ 12 := by exact_mod_cast hk2
    rw [monthLoop, if_pos hguard]
    simp only [month_length_table y k hk1 hk2, Nat.add_zero]
    rw [if_pos hr]
  | succ d ih =>
    intro k fuel days r hf hk1 hk2
    obtain ⟨f, rfl⟩ : ∃ f, fuel = f + 1 := ⟨fuel - 1, by omega⟩
    have hf2 : d < f := by omega
    have hk3 : k + 1 + d ≤ 12 := by omega
    have hk4 : k ≤ 11 := by omega
    have hk5 : k ≤ 12 := by omega
    have hguard : (k : Int) ≤ 12 := by exact_mod_cast hk5
    have hnext : (k : Int) + 1 = ((k + 1 : Nat) : Int) := by push_cast; ring
    have hidx : k + (d + 1) = k + 1 + d := by omega
    intro hsum hr
    have hstep := daysBeforeMonth_succ y k hk1 hk4
    have hmono : daysBeforeMonth y (k + 1) ≤ daysBeforeMonth y (k + (d + 1)) :=
      daysBeforeMonth_mono y _ _ (by omega) (by omega) hk2
    obtain ⟨hge, hrest⟩ := year_step_arith _ _ _ _ _ _ hsum hmono hstep
    rw [monthLoop, if_pos hguard]
    simp only [month_length_table y k hk1 hk5]
    rw [if_neg (Nat.not_lt.mpr hge), hnext, hidx]
    refine ih (k + 1) f (days - daysInMonth y k) r hf2 (by omega) hk3 ?_ ?_
    · rw [← hidx]; exact hrest
    · rw [← hidx]; exact hr

theorem month_decomposition (y : Int) (r : Nat) : r < yearLength y →
    ∃ m d : Nat, 1 ≤ m ∧ m ≤ 12 ∧ d < daysInMonth y (m : Int) ∧ daysBeforeMonth y m + d = r := by
  induction r with
  | zero =>
    intro _
    refine ⟨1, 0, le_refl _, by omega, ?_, ?_⟩
    · cases hl : gregorianLeap y <;> simp only [daysInMonth, hl] <;> decide
    · cases hl : gregorianLeap y <;> simp only [daysBeforeMonth, hl] <;> rfl
  | succ r ih =>
    intro hr
    obtain ⟨m, d, hm1, hm2, hd, hsum⟩ := ih (by omega)
    by_cases h : d + 1 < daysInMonth y (m : Int)
    · exact ⟨m, d + 1, hm1, hm2, h, by omega⟩
    · rcases Nat.lt_or_ge m 12 with h12 | h12
      · have hstep := daysBeforeMonth_succ y m hm1 (by omega)
        have hpos : 0 < daysInMonth y ((m + 1 : Nat) : Int) := by
          unfold daysInMonth; split_ifs <;> omega
        exact ⟨m + 1, 0, by omega, by omega, hpos, by clear hpos; omega⟩
      · have hm : m = 12 := by omega
        subst hm
        have h13 := daysBeforeMonth_thirteen y
        exfalso
        have hd2 : d + 1 = daysInMonth y ((12 : Nat) : Int) := by omega
        have h13b : daysBeforeMonth y 12 + daysInMonth y ((12 : Nat) : Int) = yearLength y := h13
        omega


theorem daysBeforeMonth_one (y : Int) : daysBeforeMonth y 1 = 0 := by
  cases hl : gregorianLeap y <;> simp only [daysBeforeMonth, hl] <;> rfl

theorem toI32_of_nat (n : Nat) (h : n < 2 ^ 31) : toI32 (n : Int) = n :=
  toI32_of_range _ (by omega) (by omega)

theorem daysInMonth_le (y m : Int) : daysInMonth y m ≤ 31 := by
  unfold daysInMonth; split_ifs <;> omega

/-- The day of the year of a valid date is below the length of the year. -/
theorem day_of_year_lt (y : Int) (m d : Nat) (hm1 : 1 ≤ m) (hm2 : m ≤ 12) (hd1 : 1 ≤ d)
    (hd2 : d ≤ daysInMonth y (m : Int)) :
    daysBeforeMonth y m + (d - 1) < yearLength y := by
  have hlast := daysBeforeMonth_thirteen y
  rcases Nat.lt_or_ge m 12 with h | h
  · have hstep := daysBeforeMonth_succ y m hm1 (by omega)
    have hmono2 := daysBeforeMonth_mono y (m + 1) 12 (by omega) (by omega) (le_refl _)
    have hpos12 : 0 < daysInMonth y 12 := by
      unfold daysInMonth; split_ifs <;> omega
    omega
  · have hm : m = 12 := by omega
    subst hm
    have hd3 : d ≤ daysInMonth y 12 := hd2
    clear hd2; omega

/-- The inverse conversion at a day number whose calendar position is known. -/
theorem timestamp_to_datetime_of_position (ts n m d : Nat) (hn : 1970 + n < 2 ^ 31)
    (hm1 : 1 ≤ m) (hm2 : m ≤ 12) (hd1 : 1 ≤ d)
    (hd2 : d ≤ daysInMonth (1970 + (n : Int)) (m : Int))
    (hpos : daysBeforeYear n + daysBeforeMonth (1970 + (n : Int)) m + (d - 1) = ts / 86400) :
    timestamp_to_datetime ts =
      some { year := 1970 + (n : Int), month := (m : Int), day := (d : Int),
             hour := ((ts % 86400 / 3600 : Nat) : Int),
             minute := ((ts % 86400 % 3600 / 60 : Nat) : Int),
             second := ((ts % 86400 % 3600 % 60 : Nat) : Int) } := by
  have hdim := daysInMonth_le (1970 + (n : Int)) (m : Int)
  have hr := day_of_year_lt (1970 + (n : Int)) m d hm1 hm2 hd1 hd2
  have hn2 : 365 * n ≤ ts / 86400 := le_trans (daysBeforeYear_ge n) (by omega)
  have hy := yearLoop_eq n 0 (ts / 86400 + 1) (ts / 86400)
    (daysBeforeMonth (1970 + (n : Int)) m + (d - 1)) (by omega) (by omega)
    (by rw [Nat.zero_add]; show ts / 86400 + 0 = _; omega) (by rw [Nat.zero_add]; exact hr)
  simp only [Nat.cast_zero, add_zero, Nat.zero_add] at hy
  have hidx : 1 + (m - 1) = m := by omega
  have hmo := monthLoop_eq (1970 + (n : Int)) (m - 1) 1 13
    (daysBeforeMonth (1970 + (n : Int)) m + (d - 1)) (d - 1) (by omega) (le_refl _) (by omega)
    (by rw [hidx, daysBeforeMonth_one]; omega) (by rw [hidx]; omega)
  rw [hidx] at hmo
  unfold timestamp_to_datetime
  simp only [hy, Nat.cast_one] at hmo ⊢
  simp only [hmo]
  have hd64 : (d - 1 + 1) % 2 ^ 64 = d := by omega
  rw [hd64, toI32_of_nat d (by omega), toI32_of_nat (ts % 86400 / 3600) (by omega),
    toI32_of_nat (ts % 86400 % 3600 / 60) (by omega),
    toI32_of_nat (ts % 86400 % 3600 % 60) (by omega)]

/-- What `timestamp_to_datetime` computes: it produces a result, whose year,
month and day are the calendar position of day number `ts / 86400` and whose
time of day is the split of `ts % 86400`. -/
theorem timestamp_to_datetime_spec (ts : Nat) (hts : ts / 86400 < 365 * 2147481678) :
    ∃ n m d : Nat,
      timestamp_to_datetime ts =
        some { year := 1970 + (n : Int), month := (m : Int), day := (d : Int),
               hour := ((ts % 86400 / 3600 : Nat) : Int),
               minute := ((ts % 86400 % 3600 / 60 : Nat) : Int),
               second := ((ts % 86400 % 3600 % 60 : Nat) : Int) } ∧
      1 ≤ m ∧ m ≤ 12 ∧ 1 ≤ d ∧ d ≤ daysInMonth (1970 + (n : Int)) (m : Int) ∧
      daysBeforeYear n + daysBeforeMonth (1970 + (n : Int)) m + (d - 1) = ts / 86400 := by
  obtain ⟨n, r, hsum, hr⟩ := year_decomposition (ts / 86400)
  have hn : 365 * n ≤ ts / 86400 := le_trans (daysBeforeYear_ge n) (by omega)
  obtain ⟨m, d, hm1, hm2, hd, hmsum⟩ := month_decomposition (1970 + (n : Int)) r hr
  have hpos : daysBeforeYear n + daysBeforeMonth (1970 + (n : Int)) m + (d + 1 - 1)
      = ts / 86400 := by
    clear hd hr; omega
  exact ⟨n, m, d + 1, timestamp_to_datetime_of_position ts n m (d + 1) (by omega) hm1 hm2
    (by omega) (by omega) hpos, hm1, hm2, by omega, by omega, hpos⟩

/-! ## The supported range -/

/-- The first timestamp after the supported range, 2201-01-01 00:00:00. -/
theorem supported_range_end : datetime_to_timestamp 2201 1 1 0 0 0 = 7289654400 := by
  set_option maxRecDepth 100000 in decide

/-- Inside the supported range the year offset stays far below the `int` range. -/
theorem year_index_small (n D : Nat) (hD : D < 365 * 2147481678) (h : daysBeforeYear n ≤ D) :
    1970 + n < 2 ^ 31 := by
  have := daysBeforeYear_ge n
  omega

/-! ## Round trips -/

/-- C1. Round trip timestamp → civil → timestamp: for every timestamp `t` in the
supported range (`t < datetime_to_timestamp 2201 1 1 0 0 0`, civil years 1970
to 2200), `timestamp_to_datetime t` yields fields `c`, and
`datetime_to_timestamp` of these fields is `t` again. -/
theorem timestamp_roundtrip (t : Nat) (ht : t < datetime_to_timestamp 2201 1 1 0 0 0) :
    ∃ c : DateTime, timestamp_to_datetime t = some c ∧
      datetime_to_timestamp c.year c.month c.day c.hour c.minute c.second = t := by
  rw [supported_range_end] at ht
  obtain ⟨n, m, d, hdt, hm1, hm2, hd1, hd2, hpos⟩ := timestamp_to_datetime_spec t (by omega)
  have hn := year_index_small n (t / 86400) (by omega) (by omega)
  have hdim := daysInMonth_le (1970 + (n : Int)) (m : Int)
  refine ⟨_, hdt, ?_⟩
  simp only
  rw [datetime_to_timestamp_eq n m d _ _ _ hn hm1 hm2 hd1 (by omega) (by omega) (by omega)
    (by omega), hpos]
  omega

/-- C1, at the timestamp 1735689600 (2025-01-01 00:00:00). -/
theorem timestamp_roundtrip_witness :
    (1735689600 : Nat) < datetime_to_timestamp 2201 1 1 0 0 0 ∧
    ∃ c : DateTime, timestamp_to_datetime 1735689600 = some c ∧
      datetime_to_timestamp c.year c.month c.day c.hour c.minute c.second = 1735689600 :=
  ⟨by set_option maxRecDepth 100000 in decide,
   timestamp_roundtrip 1735689600 (by set_option maxRecDepth 100000 in decide)⟩


/-- Splitting `days * 86400 + h * 3600 + mi * 60 + s` back into its parts. -/
theorem time_of_day_split (D h mi s : Nat) (hh : h ≤ 23) (hmi : mi ≤ 59) (hs : s ≤ 59) :
    (D * 86400 + h * 3600 + mi * 60 + s) / 86400 = D ∧
    (D * 86400 + h * 3600 + mi * 60 + s) % 86400 / 3600 = h ∧
    (D * 86400 + h * 3600 + mi * 60 + s) % 86400 % 3600 / 60 = mi ∧
    (D * 86400 + h * 3600 + mi * 60 + s) % 86400 % 3600 % 60 = s := by
  omega

/-- The two conversions on a valid civil date/time given by natural numbers. -/
theorem roundtrip_on_nat (n m d h mi s : Nat) (hn : 1970 + n < 2 ^ 31)
    (hm1 : 1 ≤ m) (hm2 : m ≤ 12) (hd1 : 1 ≤ d)
    (hd2 : d ≤ daysInMonth (1970 + (n : Int)) (m : Int))
    (hh : h ≤ 23) (hmi : mi ≤ 59) (hs : s ≤ 59) :
    datetime_to_timestamp (1970 + (n : Int)) m d h mi s
      = (daysBeforeYear n + daysBeforeMonth (1970 + (n : Int)) m + (d - 1)) * 86400
        + h * 3600 + mi * 60 + s ∧
    timestamp_to_datetime (datetime_to_timestamp (1970 + (n : Int)) m d h mi s)
      = some { year := 1970 + (n : Int), month := m, day := d, hour := h, minute := mi,
               second := s } := by
  have hdim := daysInMonth_le (1970 + (n : Int)) (m : Int)
  have heq := datetime_to_timestamp_eq n m d h mi s hn hm1 hm2 hd1 (by omega) (by omega)
    (by omega) (by omega)
  refine ⟨heq, ?_⟩
  obtain ⟨h1, h2, h3, h4⟩ := time_of_day_split
    (daysBeforeYear n + daysBeforeMonth (1970 + (n : Int)) m + (d - 1)) h mi s hh hmi hs
  rw [heq, timestamp_to_datetime_of_position _ n m d hn hm1 hm2 hd1 hd2 h1.symm, h2, h3, h4]

/-- A valid civil date/time is given by natural numbers. -/
theorem valid_as_nat (c : DateTime) (hv : ValidDateTime c) :
    ∃ n m d h mi s : Nat,
      c = { year := 1970 + (n : Int), month := m, day := d, hour := h, minute := mi,
            second := s } ∧
      1 ≤ m ∧ m ≤ 12 ∧ 1 ≤ d ∧ d ≤ daysInMonth (1970 + (n : Int)) (m : Int) ∧
      h ≤ 23 ∧ mi ≤ 59 ∧ s ≤ 59 := by
  obtain ⟨y, mo, d, h, mi, s⟩ := c
  obtain ⟨hy, hm1, hm2, hd1, hd2, hh1, hh2, hmi1, hmi2, hs1, hs2⟩ := hv
  simp only at hy hm1 hm2 hd1 hd2 hh1 hh2 hmi1 hmi2 hs1 hs2
  obtain ⟨n, rfl⟩ : ∃ n : Nat, y = 1970 + (n : Int) := ⟨(y - 1970).toNat, by omega⟩
  obtain ⟨m, rfl⟩ : ∃ m : Nat, mo = (m : Int) := ⟨mo.toNat, by omega⟩
  obtain ⟨d, rfl⟩ : ∃ k : Nat, d = (k : Int) := ⟨d.toNat, by omega⟩
  obtain ⟨h, rfl⟩ : ∃ k : Nat, h = (k : Int) := ⟨h.toNat, by omega⟩
  obtain ⟨mi, rfl⟩ : ∃ k : Nat, mi = (k : Int) := ⟨mi.toNat, by omega⟩
  obtain ⟨s, rfl⟩ : ∃ k : Nat, s = (k : Int) := ⟨s.toNat, by omega⟩
  exact ⟨n, m, d, h, mi, s, rfl, by omega, by omega, by omega, by exact_mod_cast hd2, by omega,
    by omega, by omega⟩

/-- Round trip on a valid civil date/time whose year is an `int`. -/
theorem roundtrip_of_valid (c : DateTime) (hv : ValidDateTime c) (hint : c.year < 2 ^ 31) :
    timestamp_to_datetime
      (datetime_to_timestamp c.year c.month c.day c.hour c.minute c.second) = some c := by
  obtain ⟨n, m, d, h, mi, s, rfl, hm1, hm2, hd1, hd2, hh, hmi, hs⟩ := valid_as_nat c hv
  simp only at hint ⊢
  exact (roundtrip_on_nat n m d h mi s (by omega) hm1 hm2 hd1 hd2 hh hmi hs).2

/-- C2. Round trip civil → timestamp → civil: for every valid civil date/time
(year at least 1970 and an `int`, month 1..12, day 1..days-in-month with 29
days in February exactly in leap years, hour 0..23, minute and second 0..59),
`timestamp_to_datetime (datetime_to_timestamp fields)` yields exactly the same
six fields. -/
theorem civil_roundtrip (c : DateTime) (hv : ValidDateTime c) (hint : c.year < 2 ^ 31) :
    timestamp_to_datetime
      (datetime_to_timestamp c.year c.month c.day c.hour c.minute c.second) = some c :=
  roundtrip_of_valid c hv hint

/-- C2, at 2024-02-29 23:59:59. -/
theorem civil_roundtrip_witness :
    ValidDateTime ⟨2024, 2, 29, 23, 59, 59⟩ ∧ (2024 : Int) < 2 ^ 31 ∧
    timestamp_to_datetime (datetime_to_timestamp 2024 2 29 23 59 59)
      = some ⟨2024, 2, 29, 23, 59, 59⟩ :=
  ⟨by unfold ValidDateTime; decide, by decide,
   civil_roundtrip ⟨2024, 2, 29, 23, 59, 59⟩ (by unfold ValidDateTime; decide) (by decide)⟩


/-! ## The offset scheme -/

theorem year_start_eq (n : Nat) (hn : 1970 + n < 2 ^ 31) :
    datetime_to_timestamp (1970 + (n : Int)) 1 1 0 0 0 = daysBeforeYear n * 86400 := by
  have h := datetime_to_timestamp_eq n 1 1 0 0 0 hn (le_refl _) (by omega) (le_refl _)
    (by omega) (by omega) (by omega) (by omega)
  simp only [Nat.cast_one, Nat.cast_zero, daysBeforeMonth_one] at h
  rw [h]; omega

theorem emod_toNat_nonneg (x : Int) (hx1 : 0 ≤ x) (hx2 : x < 2 ^ 31) : (x % 2 ^ 64).toNat = x.toNat := by
  rw [Int.emod_eq_of_lt hx1 (by omega)]

theorem emod_toNat_neg (x : Int) (hx1 : -2 ^ 31 ≤ x) (hx2 : x < 0) : (x % 2 ^ 64).toNat = 2 ^ 64 - (-x).toNat := by
  have h : x % 2 ^ 64 = x + 2 ^ 64 := by
    rw [← Int.add_emod_self, Int.emod_eq_of_lt (by omega) (by omega)]
  rw [h]; omega

theorem epoch_add_arith (B T : Nat) (x : Int) (hB : B < 2 ^ 62) (hT : T < 2 ^ 31) (hx1 : -2 ^ 31 ≤ x)
    (hx2 : x < 2 ^ 31) (h0 : 0 ≤ (T : Int) + x) :
    (B + T + (x % 2 ^ 64).toNat) % 2 ^ 64 = B + ((T : Int) + x).toNat := by
  rcases lt_or_le x 0 with hneg | hpos
  · rw [emod_toNat_neg x hx1 hneg]
    have h3 : B + T + (2 ^ 64 - (-x).toNat) = (B + ((T : Int) + x).toNat) + 2 ^ 64 := by omega
    rw [h3, Nat.add_mod_right, Nat.mod_eq_of_lt (by omega)]
  · rw [emod_toNat_nonneg x hpos hx2, Nat.mod_eq_of_lt (by omega)]; omega

theorem counter_sub_arith (B e : Nat) (he : e < 2 ^ 32) :
    ((((B + e : Nat) : Int) - (B : Int)) % 2 ^ 64).toNat % 2 ^ 32 = e := by
  have h : (((B + e : Nat) : Int) - (B : Int)) = (e : Int) := by push_cast; ring
  rw [h, Int.emod_eq_of_lt (by omega) (by omega), Int.toNat_ofNat, Nat.mod_eq_of_lt he]

/-- What `rtc_setTime` does on a valid date with an hour offset that keeps the
time inside the year being set (or later): the offset becomes the start of
that year and the counter the seconds since then. -/
theorem rtc_setTime_eq (n m d h mi s : Nat) (k : Int) (st : RtcState) (hn : 1970 + n < 2 ^ 31)
    (hm1 : 1 ≤ m) (hm2 : m ≤ 12) (hd1 : 1 ≤ d)
    (hd2 : d ≤ daysInMonth (1970 + (n : Int)) (m : Int))
    (hh : h ≤ 23) (hmi : mi ≤ 59) (hs : s ≤ 59)
    (hk1 : -2 ^ 31 ≤ k * 3600) (hk2 : k * 3600 < 2 ^ 31)
    (hk3 : 0 ≤ (((daysBeforeMonth (1970 + (n : Int)) m + (d - 1)) * 86400
      + h * 3600 + mi * 60 + s : Nat) : Int) + k * 3600) :
    rtc_setTime (1970 + (n : Int)) m d h mi s k st =
      (daysBeforeYear n * 86400 + ((((daysBeforeMonth (1970 + (n : Int)) m + (d - 1)) * 86400
          + h * 3600 + mi * 60 + s : Nat) : Int) + k * 3600).toNat,
       { st with
         counter := ((((daysBeforeMonth (1970 + (n : Int)) m + (d - 1)) * 86400
          + h * 3600 + mi * 60 + s : Nat) : Int) + k * 3600).toNat,
         offset_for_32bit := daysBeforeYear n * 86400 }) := by
  have hdoy := day_of_year_lt (1970 + (n : Int)) m d hm1 hm2 hd1 hd2
  have hyl := yearLength_pos (1970 + (n : Int))
  have hby := daysBeforeYear_le n
  have heq := (roundtrip_on_nat n m d h mi s hn hm1 hm2 hd1 hd2 hh hmi hs).1
  have heq2 : datetime_to_timestamp (1970 + (n : Int)) m d h mi s
      = daysBeforeYear n * 86400
        + ((daysBeforeMonth (1970 + (n : Int)) m + (d - 1)) * 86400 + h * 3600 + mi * 60 + s) := by
    rw [heq]; ring
  have hT : (daysBeforeMonth (1970 + (n : Int)) m + (d - 1)) * 86400 + h * 3600 + mi * 60 + s
      < 366 * 86400 := by omega
  unfold rtc_setTime calc_time_offset RTC_SetCounter
  simp only [heq2, year_start_eq n hn, toI32_of_range _ hk1 hk2]
  generalize (daysBeforeMonth (1970 + (n : Int)) m + (d - 1)) * 86400 + h * 3600 + mi * 60 + s
    = T at *
  generalize daysBeforeYear n = b at *
  clear heq heq2 hdoy hyl hd2
  unfold toU64
  have hsum := epoch_add_arith (b * 86400) T (k * 3600) (by omega) (by omega) hk1 hk2 hk3
  have hlt : ((T : Int) + k * 3600).toNat < 2 ^ 32 := by omega
  refine Prod.ext ?_ ?_
  · simp only; exact hsum
  · simp only [RtcState.mk.injEq, and_true, true_and]
    rw [hsum]; exact counter_sub_arith _ _ hlt


/-- With hour offset 0, `rtc_setTime` on a valid date returns the timestamp of
the date, anchors the offset at the start of the year and leaves in the
counter the seconds since then, fewer than `366 * 86400`. -/
theorem rtc_setTime_zero (c : DateTime) (hv : ValidDateTime c) (hint : c.year < 2 ^ 31)
    (st : RtcState) :
    ∃ T : Nat, T < 366 * 86400 ∧
      datetime_to_timestamp c.year c.month c.day c.hour c.minute c.second
        = datetime_to_timestamp c.year 1 1 0 0 0 + T ∧
      rtc_setTime c.year c.month c.day c.hour c.minute c.second 0 st
        = (datetime_to_timestamp c.year c.month c.day c.hour c.minute c.second,
           { st with counter := T,
                     offset_for_32bit := datetime_to_timestamp c.year 1 1 0 0 0 }) := by
  obtain ⟨n, m, d, h, mi, s, rfl, hm1, hm2, hd1, hd2, hh, hmi, hs⟩ := valid_as_nat c hv
  simp only at hint ⊢
  have hn : 1970 + n < 2 ^ 31 := by omega
  have hdoy := day_of_year_lt (1970 + (n : Int)) m d hm1 hm2 hd1 hd2
  have hyl := yearLength_pos (1970 + (n : Int))
  have heq := (roundtrip_on_nat n m d h mi s hn hm1 hm2 hd1 hd2 hh hmi hs).1
  have hys := year_start_eq n hn
  have hset := rtc_setTime_eq n m d h mi s 0 st hn hm1 hm2 hd1 hd2 hh hmi hs (by omega)
    (by omega) (by omega)
  simp only [zero_mul, add_zero, Int.toNat_ofNat] at hset
  have heqT : datetime_to_timestamp (1970 + (n : Int)) m d h mi s = daysBeforeYear n * 86400
      + ((daysBeforeMonth (1970 + (n : Int)) m + (d - 1)) * 86400 + h * 3600 + mi * 60 + s) :=
    heq.trans (by ring)
  have key : ∀ E O : Nat, E = daysBeforeYear n * 86400
        + ((daysBeforeMonth (1970 + (n : Int)) m + (d - 1)) * 86400 + h * 3600 + mi * 60 + s) →
      O = daysBeforeYear n * 86400 →
      E = O + ((daysBeforeMonth (1970 + (n : Int)) m + (d - 1)) * 86400
        + h * 3600 + mi * 60 + s) ∧
      rtc_setTime (1970 + (n : Int)) m d h mi s 0 st
        = (E, { st with
                counter := (daysBeforeMonth (1970 + (n : Int)) m + (d - 1)) * 86400
                  + h * 3600 + mi * 60 + s,
                offset_for_32bit := O }) := by
    intro E O hE hO
    subst hE; subst hO
    exact ⟨rfl, hset⟩
  exact ⟨(daysBeforeMonth (1970 + (n : Int)) m + (d - 1)) * 86400 + h * 3600 + mi * 60 + s,
    by omega, (key _ _ heqT hys).1, (key _ _ heqT hys).2⟩


/-- The start of an `int` year from 1970 on is far below the `uint64_t` range. -/
theorem year_start_bound (y : Int) (hy : 1970 ≤ y) (hint : y < 2 ^ 31) :
    datetime_to_timestamp y 1 1 0 0 0 < 2 ^ 62 := by
  obtain ⟨n, rfl⟩ : ∃ n : Nat, y = 1970 + (n : Int) := ⟨(y - 1970).toNat, by omega⟩
  have hle := daysBeforeYear_le n
  rw [year_start_eq n (by omega)]
  omega

/-- The counter read after `n` ticks, and the offset, which no tick touches. -/
theorem ticks_spec (n : Nat) : ∀ s : RtcState,
    RTC_GetCounter (ticks n s) = (s.counter + n) % 2 ^ 32 ∧
    (ticks n s).offset_for_32bit = s.offset_for_32bit := by
  induction n with
  | zero => intro s; exact ⟨rfl, rfl⟩
  | succ n ih =>
    intro s
    obtain ⟨h1, h2⟩ := ih (tick s)
    refine ⟨?_, ?_⟩
    · rw [ticks, h1]; simp only [tick]; omega
    · rw [ticks, h2]; rfl

/-- C3. Offset scheme: for every valid civil date/time from 1970 on, right
after `rtc_setTime fields 0`, with no counter tick in between, `rtc_get_epoch`
equals `datetime_to_timestamp fields`, and `timestamp_to_datetime` of it
reproduces the same six fields. -/
theorem offset_scheme (c : DateTime) (hv : ValidDateTime c) (hint : c.year < 2 ^ 31)
    (st : RtcState) :
    rtc_get_epoch (rtc_setTime c.year c.month c.day c.hour c.minute c.second 0 st).2
      = datetime_to_timestamp c.year c.month c.day c.hour c.minute c.second ∧
    timestamp_to_datetime
      (rtc_get_epoch (rtc_setTime c.year c.month c.day c.hour c.minute c.second 0 st).2)
      = some c := by
  obtain ⟨T, hT, hsum, hset⟩ := rtc_setTime_zero c hv hint st
  have hrt := roundtrip_of_valid c hv hint
  have hlt : datetime_to_timestamp c.year c.month c.day c.hour c.minute c.second < 2 ^ 64 :=
    Nat.mod_lt _ (by decide)
  have hget : rtc_get_epoch
      (rtc_setTime c.year c.month c.day c.hour c.minute c.second 0 st).2
      = datetime_to_timestamp c.year c.month c.day c.hour c.minute c.second := by
    rw [hset]
    simp only [rtc_get_epoch, RTC_GetCounter]
    rw [Nat.mod_eq_of_lt (show T < 2 ^ 32 by omega), Nat.add_comm, ← hsum,
      Nat.mod_eq_of_lt hlt]
  exact ⟨hget, hget.symm ▸ hrt⟩

/-- C3, at 2025-06-15 12:00:00, starting from the state a cold start leaves. -/
theorem offset_scheme_witness :
    ValidDateTime ⟨2025, 6, 15, 12, 0, 0⟩ ∧ (2025 : Int) < 2 ^ 31 ∧
    rtc_get_epoch (rtc_setTime 2025 6 15 12 0 0 0 ⟨0, 32767, 0xA5A5, 0⟩).2
      = datetime_to_timestamp 2025 6 15 12 0 0 ∧
    timestamp_to_datetime (rtc_get_epoch (rtc_setTime 2025 6 15 12 0 0 0 ⟨0, 32767, 0xA5A5, 0⟩).2)
      = some ⟨2025, 6, 15, 12, 0, 0⟩ :=
  ⟨by unfold ValidDateTime; decide, by decide,
   offset_scheme ⟨2025, 6, 15, 12, 0, 0⟩ (by unfold ValidDateTime; decide) (by decide)
     ⟨0, 32767, 0xA5A5, 0⟩⟩

/-- C4, at its failing input: `rtc_setTime(2025,1,1,0,0,0,-1)` returns
1735686000 (2024-12-31 23:00:00) but leaves the counter at `2^32 - 3600` over
the offset 1735689600, so that `rtc_get_epoch` reads 6030653296, a date in
2161, and not the timestamp just written. -/
theorem setTime_before_year_start :
    (rtc_setTime 2025 1 1 0 0 0 (-1) ⟨0, 32767, 0xA5A5, 0⟩).1 = 1735686000 ∧
    (rtc_setTime 2025 1 1 0 0 0 (-1) ⟨0, 32767, 0xA5A5, 0⟩).2
      = ⟨4294963696, 32767, 0xA5A5, 1735689600⟩ ∧
    rtc_get_epoch (rtc_setTime 2025 1 1 0 0 0 (-1) ⟨0, 32767, 0xA5A5, 0⟩).2 = 6030653296 ∧
    rtc_get_epoch (rtc_setTime 2025 1 1 0 0 0 (-1) ⟨0, 32767, 0xA5A5, 0⟩).2
      ≠ (rtc_setTime 2025 1 1 0 0 0 (-1) ⟨0, 32767, 0xA5A5, 0⟩).1 ∧
    timestamp_to_datetime (rtc_get_epoch (rtc_setTime 2025 1 1 0 0 0 (-1) ⟨0, 32767, 0xA5A5, 0⟩).2)
      = some ⟨2161, 2, 7, 5, 28, 16⟩ := by
  set_option maxRecDepth 100000 in decide

/-- C5. 64-bit extension in lock-step: for every valid civil date/time from
1970 on (years after 2106 included) and every `n < 2^32 - 366 * 86400`, after
`rtc_setTime fields 0` followed by `n` increments of the 32-bit hardware
counter, `rtc_get_epoch` equals `datetime_to_timestamp fields + n`, also when
that value exceeds `2^32 - 1`. -/
theorem epoch_lock_step (c : DateTime) (hv : ValidDateTime c) (hint : c.year < 2 ^ 31)
    (st : RtcState) (n : Nat) (hn : n < 2 ^ 32 - 366 * 86400) :
    rtc_get_epoch
      (ticks n (rtc_setTime c.year c.month c.day c.hour c.minute c.second 0 st).2)
      = datetime_to_timestamp c.year c.month c.day c.hour c.minute c.second + n := by
  obtain ⟨T, hT, hsum, hset⟩ := rtc_setTime_zero c hv hint st
  obtain ⟨hc, ho⟩ := ticks_spec n
    (rtc_setTime c.year c.month c.day c.hour c.minute c.second 0 st).2
  have hO := year_start_bound c.year hv.1 hint
  unfold rtc_get_epoch
  rw [hc, ho, hset]
  simp only
  rw [Nat.mod_eq_of_lt (show T + n < 2 ^ 32 by omega), hsum]
  clear hsum hset hc ho
  omega

/-- C5, at 2150-03-01 00:00:00 and one hundred years of ticks: the 64-bit
value is then far beyond `2^32 - 1`. -/
theorem epoch_lock_step_witness :
    ValidDateTime ⟨2150, 3, 1, 0, 0, 0⟩ ∧ (2150 : Int) < 2 ^ 31 ∧
    (3155760000 : Nat) < 2 ^ 32 - 366 * 86400 ∧
    rtc_get_epoch (ticks 3155760000 (rtc_setTime 2150 3 1 0 0 0 0 ⟨0, 32767, 0xA5A5, 0⟩).2)
      = datetime_to_timestamp 2150 3 1 0 0 0 + 3155760000 :=
  ⟨by unfold ValidDateTime; decide, by decide, by decide,
   epoch_lock_step ⟨2150, 3, 1, 0, 0, 0⟩ (by unfold ValidDateTime; decide) (by decide)
     ⟨0, 32767, 0xA5A5, 0⟩ 3155760000 (by decide)⟩


/-! ## Monotonicity and validity of the inverse conversion -/

theorem lex_arith (a1 r1 a2 w2 r2 s : Nat) (h : a1 + r1 ≤ a2 + r2) (hr2 : r2 < w2)
    (hs : s = a2 + w2) (hmono : s ≤ a1) : False := by
  omega

/-- Calendar positions are ordered like the day numbers they stand for. -/
theorem position_le (n1 m1 d1 n2 m2 d2 : Nat)
    (hm11 : 1 ≤ m1) (hm12 : m1 ≤ 12) (hd11 : 1 ≤ d1)
    (hm21 : 1 ≤ m2) (hm22 : m2 ≤ 12) (hd21 : 1 ≤ d2)
    (hd22 : d2 ≤ daysInMonth (1970 + (n2 : Int)) (m2 : Int))
    (hle : daysBeforeYear n1 + daysBeforeMonth (1970 + (n1 : Int)) m1 + (d1 - 1)
      ≤ daysBeforeYear n2 + daysBeforeMonth (1970 + (n2 : Int)) m2 + (d2 - 1)) :
    n1 < n2 ∨ (n1 = n2 ∧ (m1 < m2 ∨ (m1 = m2 ∧ d1 ≤ d2))) := by
  rcases Nat.lt_trichotomy n1 n2 with hlt | heq | hgt
  · exact Or.inl hlt
  · subst heq
    refine Or.inr ⟨rfl, ?_⟩
    have hle2 : daysBeforeMonth (1970 + (n1 : Int)) m1 + (d1 - 1)
        ≤ daysBeforeMonth (1970 + (n1 : Int)) m2 + (d2 - 1) := by
      rw [Nat.add_assoc, Nat.add_assoc] at hle
      exact Nat.le_of_add_le_add_left hle
    rcases Nat.lt_trichotomy m1 m2 with hlt | heq | hgt
    · exact Or.inl hlt
    · subst heq
      exact Or.inr ⟨rfl, by omega⟩
    · exfalso
      have hstep := daysBeforeMonth_succ (1970 + (n1 : Int)) m2 hm21 (by omega)
      have hmono := daysBeforeMonth_mono (1970 + (n1 : Int)) (m2 + 1) m1 (by omega) (by omega) hm12
      exact lex_arith _ _ _ _ _ _ hle2 (show d2 - 1 < daysInMonth (1970 + (n1 : Int)) (m2 : Int)
        by omega) hstep hmono
  · exfalso
    have hdoy := day_of_year_lt (1970 + (n2 : Int)) m2 d2 hm21 hm22 hd21 hd22
    have hmono : daysBeforeYear (n2 + 1) ≤ daysBeforeYear n1 := daysBeforeYear_mono (by omega)
    have hstep : daysBeforeYear (n2 + 1) = daysBeforeYear n2 + yearLength (1970 + (n2 : Int)) :=
      rfl
    have hle2 : daysBeforeYear n1 + (daysBeforeMonth (1970 + (n1 : Int)) m1 + (d1 - 1))
        ≤ daysBeforeYear n2 + (daysBeforeMonth (1970 + (n2 : Int)) m2 + (d2 - 1)) := by
      rw [← Nat.add_assoc, ← Nat.add_assoc]; exact hle
    exact lex_arith _ _ _ _ _ _ hle2 hdoy hstep hmono

/-- Within one day, the time of day is ordered like the timestamps. -/
theorem time_of_day_lex (t1 t2 : Nat) (h : t1 < t2) (hd : t1 / 86400 = t2 / 86400) :
    t1 % 86400 / 3600 < t2 % 86400 / 3600 ∨ (t1 % 86400 / 3600 = t2 % 86400 / 3600 ∧
      (t1 % 86400 % 3600 / 60 < t2 % 86400 % 3600 / 60 ∨
        (t1 % 86400 % 3600 / 60 = t2 % 86400 % 3600 / 60 ∧
          t1 % 86400 % 3600 % 60 ≤ t2 % 86400 % 3600 % 60))) := by
  omega


/-- C6. Monotonicity: for every two timestamps `t1 < t2` in the supported range
(civil years 1970 to 2200), `timestamp_to_datetime` yields fields for both, and
the fields of `t1` are lexicographically at most those of `t2`, compared in
the order year, month, day, hour, minute, second. -/
theorem timestamp_to_datetime_monotone (t1 t2 : Nat) (h12 : t1 < t2)
    (h2 : t2 < datetime_to_timestamp 2201 1 1 0 0 0) :
    ∃ c1 c2 : DateTime, timestamp_to_datetime t1 = some c1 ∧
      timestamp_to_datetime t2 = some c2 ∧ lexLe c1 c2 := by
  rw [supported_range_end] at h2
  obtain ⟨n1, m1, d1, hdt1, hm11, hm12, hd11, _, hpos1⟩ :=
    timestamp_to_datetime_spec t1 (by omega)
  obtain ⟨n2, m2, d2, hdt2, hm21, hm22, hd21, hd22, hpos2⟩ :=
    timestamp_to_datetime_spec t2 (by omega)
  have hdays : t1 / 86400 ≤ t2 / 86400 := Nat.div_le_div_right (Nat.le_of_lt h12)
  have hpos := position_le n1 m1 d1 n2 m2 d2 hm11 hm12 hd11 hm21 hm22 hd21 hd22
    (by rw [hpos1, hpos2]; exact hdays)
  refine ⟨_, _, hdt1, hdt2, ?_⟩
  unfold lexLe
  simp only
  rcases hpos with hn | ⟨hn, hm | ⟨hm, hd⟩⟩
  · exact Or.inl (by omega)
  · exact Or.inr ⟨by omega, Or.inl (by omega)⟩
  · rcases Nat.lt_or_ge d1 d2 with hlt | hge
    · exact Or.inr ⟨by omega, Or.inr ⟨by omega, Or.inl (by omega)⟩⟩
    · have hd : d1 = d2 := by omega
      subst hn; subst hm; subst hd
      have hsame : t1 / 86400 = t2 / 86400 := by rw [← hpos1, ← hpos2]
      have htod := time_of_day_lex t1 t2 h12 hsame
      refine Or.inr ⟨rfl, Or.inr ⟨rfl, Or.inr ⟨rfl, ?_⟩⟩⟩
      clear hpos1 hpos2 hdt1 hdt2 hd22
      omega

/-- C6, at the last second of 2024 and the first of 2025. -/
theorem timestamp_to_datetime_monotone_witness :
    (1735689599 : Nat) < 1735689600 ∧
    (1735689600 : Nat) < datetime_to_timestamp 2201 1 1 0 0 0 ∧
    ∃ c1 c2 : DateTime, timestamp_to_datetime 1735689599 = some c1 ∧
      timestamp_to_datetime 1735689600 = some c2 ∧ lexLe c1 c2 :=
  ⟨by decide, by set_option maxRecDepth 100000 in decide,
   timestamp_to_datetime_monotone 1735689599 1735689600 (by decide)
     (by set_option maxRecDepth 100000 in decide)⟩

/-- C7. `timestamp_to_datetime` only produces valid civil date/times: for every
timestamp in the supported range the result exists and has year at least 1970,
month 1..12, day 1..days-in-month (29 for February only in leap years), hour
0..23, minute and second 0..59; and the day after 2025-02-28 is 2025-03-01
00:00:00. -/
theorem timestamp_to_datetime_valid (t : Nat) (ht : t < datetime_to_timestamp 2201 1 1 0 0 0) :
    (∃ c : DateTime, timestamp_to_datetime t = some c ∧ ValidDateTime c) ∧
    timestamp_to_datetime (datetime_to_timestamp 2025 2 28 0 0 0 + 86400)
      = some ⟨2025, 3, 1, 0, 0, 0⟩ := by
  rw [supported_range_end] at ht
  obtain ⟨n, m, d, hdt, hm1, hm2, hd1, hd2, hpos⟩ := timestamp_to_datetime_spec t (by omega)
  refine ⟨⟨_, hdt, ?_⟩, by set_option maxRecDepth 100000 in decide⟩
  unfold ValidDateTime
  simp only
  refine ⟨by omega, by omega, by omega, by omega, by exact_mod_cast hd2, by omega, by omega,
    by omega, by omega, by omega, by omega⟩

/-- C7, at the last second of the leap day 2024-02-29. -/
theorem timestamp_to_datetime_valid_witness :
    (1709251199 : Nat) < datetime_to_timestamp 2201 1 1 0 0 0 ∧
    (∃ c : DateTime, timestamp_to_datetime 1709251199 = some c ∧ ValidDateTime c) ∧
    timestamp_to_datetime (datetime_to_timestamp 2025 2 28 0 0 0 + 86400)
      = some ⟨2025, 3, 1, 0, 0, 0⟩ :=
  ⟨by set_option maxRecDepth 100000 in decide,
   timestamp_to_datetime_valid 1709251199 (by set_option maxRecDepth 100000 in decide)⟩


/-! ## Known values -/

/-- The timestamp of midnight of day `d` of month `m` (a valid date). -/
theorem midnight_eq (n m d : Nat) (hn : 1970 + n < 2 ^ 31) (hm1 : 1 ≤ m) (hm2 : m ≤ 12)
    (hd1 : 1 ≤ d) (hd2 : d ≤ 31) :
    datetime_to_timestamp (1970 + (n : Int)) m d 0 0 0
      = (daysBeforeYear n + daysBeforeMonth (1970 + (n : Int)) m + (d - 1)) * 86400 := by
  have h := datetime_to_timestamp_eq n m d 0 0 0 hn hm1 hm2 hd1 (by omega) (by omega)
    (by omega) (by omega)
  simp only [Nat.cast_zero] at h
  exact h.trans (by omega)

/-- C8. Leap-day correctness: for every Gregorian leap year `y` from 1970 on,
`datetime_to_timestamp y 2 29 0 0 0 - datetime_to_timestamp y 2 28 0 0 0 = 86400`
and `datetime_to_timestamp y 3 1 0 0 0 - datetime_to_timestamp y 2 29 0 0 0 = 86400`;
in particular for 2024. -/
theorem leap_day (y : Int) (hy : 1970 ≤ y) (hint : y < 2 ^ 31) (hl : gregorianLeap y = true) :
    datetime_to_timestamp y 2 29 0 0 0 - datetime_to_timestamp y 2 28 0 0 0 = 86400 ∧
    datetime_to_timestamp y 3 1 0 0 0 - datetime_to_timestamp y 2 29 0 0 0 = 86400 ∧
    datetime_to_timestamp 2024 2 29 0 0 0 - datetime_to_timestamp 2024 2 28 0 0 0 = 86400 := by
  obtain ⟨n, rfl⟩ : ∃ n : Nat, y = 1970 + (n : Int) := ⟨(y - 1970).toNat, by omega⟩
  have hn : 1970 + n < 2 ^ 31 := by omega
  have h28 := midnight_eq n 2 28 hn (by omega) (by omega) (by omega) (by omega)
  have h29 := midnight_eq n 2 29 hn (by omega) (by omega) (by omega) (by omega)
  have h01 := midnight_eq n 3 1 hn (by omega) (by omega) (by omega) (by omega)
  have hb2 : daysBeforeMonth (1970 + (n : Int)) 2 = 31 := by
    simp only [daysBeforeMonth, hl]; rfl
  have hb3 : daysBeforeMonth (1970 + (n : Int)) 3 = 60 := by
    simp only [daysBeforeMonth, hl]; rfl
  rw [hb2] at h28 h29
  rw [hb3] at h01
  simp only [Nat.cast_ofNat, Nat.cast_one] at h28 h29 h01
  refine ⟨?_, ?_, by set_option maxRecDepth 100000 in decide⟩
  · exact (congrArg₂ (fun a b : Nat => a - b) h29 h28).trans (by omega)
  · exact (congrArg₂ (fun a b : Nat => a - b) h01 h29).trans (by omega)

/-- C8, at the year 2000, a leap year by the rule of 400. -/
theorem leap_day_witness :
    (1970 : Int) ≤ 2000 ∧ (2000 : Int) < 2 ^ 31 ∧ gregorianLeap 2000 = true ∧
    datetime_to_timestamp 2000 2 29 0 0 0 - datetime_to_timestamp 2000 2 28 0 0 0 = 86400 ∧
    datetime_to_timestamp 2000 3 1 0 0 0 - datetime_to_timestamp 2000 2 29 0 0 0 = 86400 ∧
    datetime_to_timestamp 2024 2 29 0 0 0 - datetime_to_timestamp 2024 2 28 0 0 0 = 86400 :=
  ⟨by decide, by decide, by decide, leap_day 2000 (by decide) (by decide) (by decide)⟩

/-- C9. Known value: `datetime_to_timestamp 2025 1 1 0 0 0 = 1735689600`, the
value of the constant `RTC_EPOCH_OFFSET`, and the value `calc_time_offset 2025`
returns and stores in `offset_for_32bit`, leaving the rest of the state alone. -/
theorem known_value_2025 :
    datetime_to_timestamp 2025 1 1 0 0 0 = 1735689600 ∧
    RTC_EPOCH_OFFSET = 1735689600 ∧
    ∀ s : RtcState, calc_time_offset 2025 s
      = (1735689600, { s with offset_for_32bit := 1735689600 }) := by
  have h : datetime_to_timestamp 2025 1 1 0 0 0 = 1735689600 := by
    set_option maxRecDepth 100000 in decide
  refine ⟨h, rfl, ?_⟩
  intro s
  unfold calc_time_offset
  simp only [h]

/-- C10. Epoch anchor: `datetime_to_timestamp 1970 1 1 0 0 0 = 0`, and
`timestamp_to_datetime 0` yields 1970-01-01 00:00:00. -/
theorem epoch_anchor :
    datetime_to_timestamp 1970 1 1 0 0 0 = 0 ∧
    timestamp_to_datetime 0 = some ⟨1970, 1, 1, 0, 0, 0⟩ := by
  decide


/-! ## Mutators and initialisation -/

/-- C11, as stated, fails: `calc_time_offset 2025` changes `offset_for_32bit`
(from 0 to 1735689600), and a cold-start `rtc_init` changes the counter (from 7
to 0). -/
theorem only_mutator_counterexample :
    (runOperation (.calc_time_offset 2025) ⟨0, 32767, 0xA5A5, 0⟩).offset_for_32bit
      ≠ (⟨0, 32767, 0xA5A5, 0⟩ : RtcState).offset_for_32bit ∧
    (runOperation .rtc_init ⟨7, 0, 0, 0⟩).counter ≠ (⟨7, 0, 0, 0⟩ : RtcState).counter := by
  set_option maxRecDepth 100000 in decide

/-- C11, amended. Every public operation other than `rtc_setTime` and
`calc_time_offset` leaves `offset_for_32bit` unchanged, and every public
operation other than `rtc_setTime` and a cold-start `rtc_init` (marker not
`0xA5A5`) leaves the raw counter unchanged. -/
theorem mutators_of_offset_and_counter (op : Operation) (s : RtcState)
    (hset : ∀ y mo d h mi sec ho, op ≠ .rtc_setTime y mo d h mi sec ho) :
    ((∀ y, op ≠ .calc_time_offset y) →
      (runOperation op s).offset_for_32bit = s.offset_for_32bit) ∧
    ((op ≠ .rtc_init ∨ s.marker = 0xA5A5) → (runOperation op s).counter = s.counter) := by
  cases op with
  | rtc_setTime y mo d h mi sec ho => exact absurd rfl (hset y mo d h mi sec ho)
  | calc_time_offset y =>
    exact ⟨fun h => absurd rfl (h y), fun _ => rfl⟩
  | rtc_init =>
    refine ⟨fun _ => ?_, fun h => ?_⟩
    · simp only [runOperation, rtc_init, RTC_SetCounter, RTC_SetPrescaler]
      split <;> rfl
    · rcases h with h | h
      · exact absurd rfl h
      · simp only [runOperation, rtc_init, h, ne_eq, not_true_eq_false, if_false]
  | rtc_get_epoch => exact ⟨fun _ => rfl, fun _ => rfl⟩
  | timestamp_to_string ts => exact ⟨fun _ => rfl, fun _ => rfl⟩
  | rtc_get_hour => exact ⟨fun _ => rfl, fun _ => rfl⟩
  | rtc_get_minute => exact ⟨fun _ => rfl, fun _ => rfl⟩
  | rtc_get_second => exact ⟨fun _ => rfl, fun _ => rfl⟩
  | rtc_get_year => exact ⟨fun _ => rfl, fun _ => rfl⟩
  | rtc_get_month => exact ⟨fun _ => rfl, fun _ => rfl⟩
  | rtc_get_day => exact ⟨fun _ => rfl, fun _ => rfl⟩

/-- C11, amended, at a warm-start `rtc_init` with the counter at 7. -/
theorem mutators_of_offset_and_counter_witness :
    (∀ y mo d h mi sec ho, Operation.rtc_init ≠ .rtc_setTime y mo d h mi sec ho) ∧
    ((∀ y, Operation.rtc_init ≠ .calc_time_offset y) →
      (runOperation .rtc_init ⟨7, 32767, 0xA5A5, 1735689600⟩).offset_for_32bit
        = (⟨7, 32767, 0xA5A5, 1735689600⟩ : RtcState).offset_for_32bit) ∧
    ((Operation.rtc_init ≠ .rtc_init ∨ (⟨7, 32767, 0xA5A5, 1735689600⟩ : RtcState).marker = 0xA5A5) →
      (runOperation .rtc_init ⟨7, 32767, 0xA5A5, 1735689600⟩).counter
        = (⟨7, 32767, 0xA5A5, 1735689600⟩ : RtcState).counter) :=
  ⟨fun _ _ _ _ _ _ _ h => Operation.noConfusion h,
   mutators_of_offset_and_counter .rtc_init ⟨7, 32767, 0xA5A5, 1735689600⟩
     (fun _ _ _ _ _ _ _ h => Operation.noConfusion h)⟩

/-- Ticks leave the marker, the prescaler and the offset alone. -/
theorem ticks_frame (n : Nat) : ∀ s : RtcState,
    (ticks n s).marker = s.marker ∧ (ticks n s).prescaler = s.prescaler ∧
    (ticks n s).offset_for_32bit = s.offset_for_32bit := by
  induction n with
  | zero => intro s; exact ⟨rfl, rfl, rfl⟩
  | succ n ih =>
    intro s
    obtain ⟨h1, h2, h3⟩ := ih (tick s)
    exact ⟨by rw [ticks, h1]; rfl, by rw [ticks, h2]; rfl, by rw [ticks, h3]; rfl⟩

/-- C13. Initialisation protocol on the modelled state: with the marker at
`0xA5A5` (warm start) `rtc_init` leaves counter, prescaler, marker and offset
unchanged; otherwise (cold start) it sets the prescaler to 32767, the counter
to 0 and the marker to `0xA5A5` and leaves the offset unchanged. So a second
`rtc_init`, also after any number of ticks, never resets the counter. -/
theorem rtc_init_protocol (s : RtcState) (n : Nat) :
    (s.marker = 0xA5A5 → rtc_init s = s) ∧
    (s.marker ≠ 0xA5A5 → rtc_init s
      = { counter := 0, prescaler := 32767, marker := 0xA5A5,
          offset_for_32bit := s.offset_for_32bit }) ∧
    rtc_init (ticks n (rtc_init s)) = ticks n (rtc_init s) := by
  have hwarm : ∀ t : RtcState, t.marker = 0xA5A5 → rtc_init t = t := by
    intro t ht
    simp only [rtc_init, ht, ne_eq, not_true_eq_false, if_false]
  have hmark : (rtc_init s).marker = 0xA5A5 := by
    by_cases h : s.marker = 0xA5A5
    · rw [hwarm s h]; exact h
    · simp only [rtc_init, ne_eq, h, not_false_eq_true, if_true]
  refine ⟨hwarm s, fun h => ?_, hwarm _ ((ticks_frame n (rtc_init s)).1.trans hmark)⟩
  simp only [rtc_init, ne_eq, h, not_false_eq_true, if_true, RTC_SetCounter, RTC_SetPrescaler]
  rfl

/-- C13, at a warm state and at a cold state. -/
theorem rtc_init_protocol_witness :
    ((⟨7, 32767, 0xA5A5, 5⟩ : RtcState).marker = 0xA5A5 ∧
      rtc_init ⟨7, 32767, 0xA5A5, 5⟩ = ⟨7, 32767, 0xA5A5, 5⟩) ∧
    ((⟨7, 1, 0, 5⟩ : RtcState).marker ≠ 0xA5A5 ∧
      rtc_init ⟨7, 1, 0, 5⟩ = ⟨0, 32767, 0xA5A5, 5⟩) :=
  ⟨⟨by decide, (rtc_init_protocol ⟨7, 32767, 0xA5A5, 5⟩ 0).1 (by decide)⟩,
   ⟨by decide, (rtc_init_protocol ⟨7, 1, 0, 5⟩ 0).2.1 (by decide)⟩⟩


/-! ## Read accessors -/

theorem toU16_of_nat (n : Nat) (h : n < 2 ^ 16) : toU16 (n : Int) = n := by
  unfold toU16; omega

theorem toU8_of_nat (n : Nat) (h : n < 2 ^ 8) : toU8 (n : Int) = n := by
  unfold toU8; omega

/-- The six accessors, when the apparent timestamp decodes to fields that fit
the types they are cast to. -/
theorem accessors_of_fields (s : RtcState) (y m d h mi sec : Nat)
    (hdt : timestamp_to_datetime (rtc_get_epoch s)
      = some { year := (y : Int), month := m, day := d, hour := h, minute := mi,
               second := sec })
    (hy : y < 2 ^ 16) (hm : m < 2 ^ 8) (hd : d < 2 ^ 8) (hh : h < 2 ^ 16) (hmi : mi < 2 ^ 16)
    (hsec : sec < 2 ^ 16) :
    rtc_get_year s = some y ∧ rtc_get_month s = some m ∧ rtc_get_day s = some d ∧
    rtc_get_hour s = some h ∧ rtc_get_minute s = some mi ∧ rtc_get_second s = some sec := by
  simp only [rtc_get_year, rtc_get_month, rtc_get_day, rtc_get_hour, rtc_get_minute,
    rtc_get_second, hdt, Option.map, toU16_of_nat y hy, toU8_of_nat m hm,
    toU8_of_nat d hd, toU16_of_nat h hh, toU16_of_nat mi hmi, toU16_of_nat sec hsec,
    and_self]

/-- The accessors at an apparent timestamp `t` whose day number is in range:
they return the fields of `timestamp_to_datetime t`, a valid date whose year
index is bounded by the day number. -/
theorem accessors_of_epoch (s : RtcState) (hts : rtc_get_epoch s / 86400 < 23000000) :
    ∃ y m d h mi sec : Nat,
      timestamp_to_datetime (rtc_get_epoch s)
        = some { year := (y : Int), month := m, day := d, hour := h, minute := mi,
                 second := sec } ∧
      rtc_get_year s = some y ∧ rtc_get_month s = some m ∧ rtc_get_day s = some d ∧
      rtc_get_hour s = some h ∧ rtc_get_minute s = some mi ∧ rtc_get_second s = some sec ∧
      1970 ≤ y ∧ daysBeforeYear (y - 1970) ≤ rtc_get_epoch s / 86400 := by
  obtain ⟨n, m, d, hdt, hm1, hm2, hd1, hd2, hpos⟩ :=
    timestamp_to_datetime_spec (rtc_get_epoch s) (by omega)
  have hn : 365 * n ≤ rtc_get_epoch s / 86400 := le_trans (daysBeforeYear_ge n) (by omega)
  have hdim := daysInMonth_le (1970 + (n : Int)) (m : Int)
  have hcast : (1970 : Int) + (n : Int) = ((1970 + n : Nat) : Int) := by push_cast; ring
  rw [hcast] at hdt
  have hacc := accessors_of_fields s (1970 + n) m d _ _ _ hdt (by omega) (by omega) (by omega)
    (by omega) (by omega) (by omega)
  refine ⟨1970 + n, m, d, _, _, _, hdt, hacc.1, hacc.2.1, hacc.2.2.1, hacc.2.2.2.1,
    hacc.2.2.2.2.1, hacc.2.2.2.2.2, by omega, ?_⟩
  have hidx : 1970 + n - 1970 = n := by omega
  rw [hidx]; omega


/-- C12. Read accessors are pure projections: in every state whose raw counter
`c` (a 32-bit value) and offset `o` give `c + o` in the supported range,
`rtc_get_epoch` returns `c + o`, the six accessors return the fields of
`timestamp_to_datetime (c + o)`, and none of these operations changes the
state (so neither the counter nor the offset). -/
theorem accessors_are_projections (s : RtcState) (hc : s.counter < 2 ^ 32)
    (hr : s.counter + s.offset_for_32bit < datetime_to_timestamp 2201 1 1 0 0 0) :
    rtc_get_epoch s = s.counter + s.offset_for_32bit ∧
    (∃ y m d h mi sec : Nat,
      timestamp_to_datetime (s.counter + s.offset_for_32bit)
        = some { year := (y : Int), month := m, day := d, hour := h, minute := mi,
                 second := sec } ∧
      rtc_get_year s = some y ∧ rtc_get_month s = some m ∧ rtc_get_day s = some d ∧
      rtc_get_hour s = some h ∧ rtc_get_minute s = some mi ∧ rtc_get_second s = some sec) ∧
    (runOperation .rtc_get_epoch s = s ∧ runOperation .rtc_get_year s = s ∧
      runOperation .rtc_get_month s = s ∧ runOperation .rtc_get_day s = s ∧
      runOperation .rtc_get_hour s = s ∧ runOperation .rtc_get_minute s = s ∧
      runOperation .rtc_get_second s = s) := by
  rw [supported_range_end] at hr
  have hep : rtc_get_epoch s = s.counter + s.offset_for_32bit := by
    unfold rtc_get_epoch RTC_GetCounter
    rw [Nat.mod_eq_of_lt hc, Nat.mod_eq_of_lt (by omega)]
  obtain ⟨y, m, d, h, mi, sec, hdt, h1, h2, h3, h4, h5, h6, _, _⟩ :=
    accessors_of_epoch s (by rw [hep]; omega)
  refine ⟨hep, ⟨y, m, d, h, mi, sec, hep ▸ hdt, h1, h2, h3, h4, h5, h6⟩,
    rfl, rfl, rfl, rfl, rfl, rfl, rfl⟩

/-- C12, at the counter 14212800 over the offset 1735689600 (2025-06-14 12:00:00). -/
theorem accessors_are_projections_witness :
    (⟨14212800, 32767, 0xA5A5, 1735689600⟩ : RtcState).counter < 2 ^ 32 ∧
    (⟨14212800, 32767, 0xA5A5, 1735689600⟩ : RtcState).counter
      + (⟨14212800, 32767, 0xA5A5, 1735689600⟩ : RtcState).offset_for_32bit
      < datetime_to_timestamp 2201 1 1 0 0 0 ∧
    rtc_get_epoch ⟨14212800, 32767, 0xA5A5, 1735689600⟩ = 1749902400 ∧
    rtc_get_year ⟨14212800, 32767, 0xA5A5, 1735689600⟩ = some 2025 ∧
    rtc_get_hour ⟨14212800, 32767, 0xA5A5, 1735689600⟩ = some 12 :=
  ⟨by decide, by set_option maxRecDepth 100000 in decide,
   (accessors_are_projections ⟨14212800, 32767, 0xA5A5, 1735689600⟩ (by decide)
     (by set_option maxRecDepth 100000 in decide)).1,
   by set_option maxRecDepth 100000 in decide, by set_option maxRecDepth 100000 in decide⟩

/-- The first of January 2107 is day 50038, after the last day a 32-bit count
of seconds can reach. -/
theorem daysBeforeYear_2107 : daysBeforeYear 137 = 50038 := by
  set_option maxRecDepth 100000 in decide

/-- C14. Unestablished offset: while `offset_for_32bit` is 0, `rtc_get_epoch`
returns exactly the raw 32-bit counter, for every counter value, so the date
is the counter read as seconds since 1970: `rtc_get_year` lies in 1970..2106;
and after a cold-start `rtc_init` the accessors report 1970-01-01 00:00:00. -/
theorem unestablished_offset (s : RtcState) (ho : s.offset_for_32bit = 0) :
    rtc_get_epoch s = RTC_GetCounter s ∧
    (∃ y : Nat, rtc_get_year s = some y ∧ 1970 ≤ y ∧ y ≤ 2106) ∧
    (s.marker ≠ 0xA5A5 →
      rtc_get_year (rtc_init s) = some 1970 ∧ rtc_get_month (rtc_init s) = some 1 ∧
      rtc_get_day (rtc_init s) = some 1 ∧ rtc_get_hour (rtc_init s) = some 0 ∧
      rtc_get_minute (rtc_init s) = some 0 ∧ rtc_get_second (rtc_init s) = some 0) := by
  have hlt : RTC_GetCounter s < 2 ^ 32 := Nat.mod_lt _ (by decide)
  have hep : rtc_get_epoch s = RTC_GetCounter s := by
    unfold rtc_get_epoch
    rw [ho, Nat.add_zero, Nat.mod_eq_of_lt (by omega)]
  refine ⟨hep, ?_, fun hcold => ?_⟩
  · obtain ⟨y, m, d, h, mi, sec, _, h1, _, _, _, _, _, hy, hday⟩ :=
      accessors_of_epoch s (by rw [hep]; omega)
    refine ⟨y, h1, hy, ?_⟩
    by_contra hgt
    have hmono : daysBeforeYear 137 ≤ daysBeforeYear (y - 1970) :=
      daysBeforeYear_mono (by omega)
    rw [daysBeforeYear_2107] at hmono
    rw [hep] at hday
    omega
  · have hinit : rtc_init s = ⟨0, 32767, 0xA5A5, 0⟩ := by
      simp only [rtc_init, ne_eq, hcold, not_false_eq_true, if_true, RTC_SetCounter,
        RTC_SetPrescaler, ho]
      rfl
    rw [hinit]
    decide

/-- C14, at the largest counter value, `2^32 - 1`, in a state never initialised. -/
theorem unestablished_offset_witness :
    (⟨4294967295, 0, 0, 0⟩ : RtcState).offset_for_32bit = 0 ∧
    rtc_get_epoch ⟨4294967295, 0, 0, 0⟩ = 4294967295 ∧
    rtc_get_year ⟨4294967295, 0, 0, 0⟩ = some 2106 ∧
    rtc_get_year (rtc_init ⟨4294967295, 0, 0, 0⟩) = some 1970 :=
  ⟨rfl, (unestablished_offset ⟨4294967295, 0, 0, 0⟩ rfl).1,
   by set_option maxRecDepth 100000 in decide,
   ((unestablished_offset ⟨4294967295, 0, 0, 0⟩ rfl).2.2 (by decide)).1⟩


/-! ## Year resolution and year length -/

/-- The start of the year after `1970 + n`, as a day count. -/
theorem next_year_start_eq (n : Nat) (hn : 1970 + n + 1 < 2 ^ 31) :
    datetime_to_timestamp (1970 + (n : Int) + 1) 1 1 0 0 0
      = (daysBeforeYear n + yearLength (1970 + (n : Int))) * 86400 := by
  have hcast : (1970 : Int) + (n : Int) + 1 = 1970 + ((n + 1 : Nat) : Int) := by
    push_cast; ring
  rw [hcast, year_start_eq (n + 1) (by omega)]
  rfl

/-- A timestamp lies between the starts of two consecutive years exactly when
its day number lies between their day counts. -/
theorem year_bracket (n t : Nat) (hn : 1970 + n + 1 < 2 ^ 31) :
    (datetime_to_timestamp (1970 + (n : Int)) 1 1 0 0 0 ≤ t ↔ daysBeforeYear n ≤ t / 86400) ∧
    (t < datetime_to_timestamp (1970 + (n : Int) + 1) 1 1 0 0 0 ↔
      t / 86400 < daysBeforeYear (n + 1)) := by
  constructor
  · rw [year_start_eq n (by omega)]
    exact (Nat.le_div_iff_mul_le (by decide)).symm
  · rw [next_year_start_eq n hn]
    exact (Nat.div_lt_iff_lt_mul (by decide)).symm

/-- C15. Year resolution: for every timestamp `t` in the supported range the
year `Y` produced by `timestamp_to_datetime t` is at least 1970 and satisfies
`datetime_to_timestamp Y 1 1 0 0 0 ≤ t < datetime_to_timestamp (Y+1) 1 1 0 0 0`,
it is the only `int` year from 1970 on that does, and hour, minute and second
are `(t mod 86400) / 3600`, `((t mod 86400) mod 3600) / 60` and `t mod 60`. -/
theorem year_resolution (t : Nat) (ht : t < datetime_to_timestamp 2201 1 1 0 0 0) :
    ∃ c : DateTime, timestamp_to_datetime t = some c ∧ 1970 ≤ c.year ∧
      datetime_to_timestamp c.year 1 1 0 0 0 ≤ t ∧
      t < datetime_to_timestamp (c.year + 1) 1 1 0 0 0 ∧
      (∀ y : Int, 1970 ≤ y → y + 1 < 2 ^ 31 → datetime_to_timestamp y 1 1 0 0 0 ≤ t →
        t < datetime_to_timestamp (y + 1) 1 1 0 0 0 → y = c.year) ∧
      c.hour = ((t % 86400 / 3600 : Nat) : Int) ∧
      c.minute = ((t % 86400 % 3600 / 60 : Nat) : Int) ∧
      c.second = ((t % 60 : Nat) : Int) := by
  rw [supported_range_end] at ht
  obtain ⟨n, m, d, hdt, hm1, hm2, hd1, hd2, hpos⟩ := timestamp_to_datetime_spec t (by omega)
  have hn := year_index_small n (t / 86400) (by omega) (by omega)
  have hn1 : 1970 + n + 1 < 2 ^ 31 := by
    have := daysBeforeYear_ge n
    omega
  have hdoy := day_of_year_lt (1970 + (n : Int)) m d hm1 hm2 hd1 hd2
  have hlo : daysBeforeYear n ≤ t / 86400 := by omega
  have hhi : t / 86400 < daysBeforeYear (n + 1) := by
    show t / 86400 < daysBeforeYear n + yearLength (1970 + (n : Int))
    omega
  obtain ⟨hb1, hb2⟩ := year_bracket n t hn1
  refine ⟨_, hdt, ?_, ?_, ?_, ?_, rfl, rfl, ?_⟩
  · simp only; omega
  · exact hb1.mpr hlo
  · exact hb2.mpr hhi
  · intro y hy1 hy2 hle hlt
    simp only
    obtain ⟨k, rfl⟩ : ∃ k : Nat, y = 1970 + (k : Int) := ⟨(y - 1970).toNat, by omega⟩
    obtain ⟨hk1, hk2⟩ := year_bracket k t (by omega)
    have hklo := hk1.mp hle
    have hkhi := hk2.mp hlt
    rcases Nat.lt_trichotomy k n with hkn | hkn | hkn
    · have hmono : daysBeforeYear (k + 1) ≤ daysBeforeYear n := daysBeforeYear_mono (by omega)
      exact absurd (lt_of_lt_of_le hkhi (le_trans hmono hlo)) (lt_irrefl _)
    · rw [hkn]
    · have hmono : daysBeforeYear (n + 1) ≤ daysBeforeYear k := daysBeforeYear_mono (by omega)
      exact absurd (lt_of_lt_of_le hhi (le_trans hmono hklo)) (lt_irrefl _)
  · simp only
    have hmod : t % 86400 % 3600 % 60 = t % 60 := by omega
    rw [hmod]

/-- C15, at the last second of 2024. -/
theorem year_resolution_witness :
    (1735689599 : Nat) < datetime_to_timestamp 2201 1 1 0 0 0 ∧
    ∃ c : DateTime, timestamp_to_datetime 1735689599 = some c ∧ 1970 ≤ c.year ∧
      datetime_to_timestamp c.year 1 1 0 0 0 ≤ 1735689599 ∧
      1735689599 < datetime_to_timestamp (c.year + 1) 1 1 0 0 0 ∧
      (∀ y : Int, 1970 ≤ y → y + 1 < 2 ^ 31 → datetime_to_timestamp y 1 1 0 0 0 ≤ 1735689599 →
        1735689599 < datetime_to_timestamp (y + 1) 1 1 0 0 0 → y = c.year) ∧
      c.hour = ((1735689599 % 86400 / 3600 : Nat) : Int) ∧
      c.minute = ((1735689599 % 86400 % 3600 / 60 : Nat) : Int) ∧
      c.second = ((1735689599 % 60 : Nat) : Int) :=
  ⟨by set_option maxRecDepth 100000 in decide,
   year_resolution 1735689599 (by set_option maxRecDepth 100000 in decide)⟩

/-- C16. Gregorian year length: for every `int` year `y` from 1970 on,
`datetime_to_timestamp (y+1) 1 1 0 0 0 - datetime_to_timestamp y 1 1 0 0 0` is
`366 * 86400` if `y` is divisible by 4 and (not divisible by 100 or divisible
by 400), and `365 * 86400` otherwise; 2000 counts 366 days, 2100 counts 365. -/
theorem year_length (y : Int) (hy : 1970 ≤ y) (hint : y + 1 < 2 ^ 31) :
    datetime_to_timestamp (y + 1) 1 1 0 0 0 - datetime_to_timestamp y 1 1 0 0 0
      = (if y % 4 = 0 ∧ (y % 100 ≠ 0 ∨ y % 400 = 0) then 366 * 86400 else 365 * 86400) ∧
    datetime_to_timestamp 2001 1 1 0 0 0 - datetime_to_timestamp 2000 1 1 0 0 0 = 366 * 86400 ∧
    datetime_to_timestamp 2101 1 1 0 0 0 - datetime_to_timestamp 2100 1 1 0 0 0
      = 365 * 86400 := by
  obtain ⟨n, rfl⟩ : ∃ n : Nat, y = 1970 + (n : Int) := ⟨(y - 1970).toNat, by omega⟩
  have h0 := year_start_eq n (by omega)
  have h1 := next_year_start_eq n (by omega)
  refine ⟨?_, by set_option maxRecDepth 100000 in decide,
    by set_option maxRecDepth 100000 in decide⟩
  refine (congrArg₂ (fun a b : Nat => a - b) h1 h0).trans ?_
  have hlen : yearLength (1970 + (n : Int))
      = if (1970 + (n : Int)) % 4 = 0 ∧
          ((1970 + (n : Int)) % 100 ≠ 0 ∨ (1970 + (n : Int)) % 400 = 0) then 366 else 365 := by
    simp only [yearLength, gregorianLeap, decide_eq_true_eq]
  simp only [hlen]
  split <;> omega

/-- C16, at the year 1900 + 200 = 2100, divisible by 100 and not by 400. -/
theorem year_length_witness :
    (1970 : Int) ≤ 2100 ∧ (2100 : Int) + 1 < 2 ^ 31 ∧
    datetime_to_timestamp (2100 + 1) 1 1 0 0 0 - datetime_to_timestamp 2100 1 1 0 0 0
      = (if (2100 : Int) % 4 = 0 ∧ ((2100 : Int) % 100 ≠ 0 ∨ (2100 : Int) % 400 = 0)
          then 366 * 86400 else 365 * 86400) ∧
    datetime_to_timestamp 2001 1 1 0 0 0 - datetime_to_timestamp 2000 1 1 0 0 0 = 366 * 86400 ∧
    datetime_to_timestamp 2101 1 1 0 0 0 - datetime_to_timestamp 2100 1 1 0 0 0
      = 365 * 86400 :=
  ⟨by decide, by decide, year_length 2100 (by decide) (by decide)⟩


/-! ## The counter value written and out-of-range inputs -/

/-- C17. Counter value written by `rtc_setTime`: for every valid civil
date/time from 1970 on and hour offset 0, afterwards the offset is
`datetime_to_timestamp year 1 1 0 0 0` and the raw counter holds
`datetime_to_timestamp fields - datetime_to_timestamp year 1 1 0 0 0`, the
seconds since the start of that year, below `366 * 86400 = 31622400`; so the
next `2^32 - 31622400` ticks (more than 135 years of 365.25 days) do not wrap
the 32-bit counter. -/
theorem counter_written (c : DateTime) (hv : ValidDateTime c) (hint : c.year < 2 ^ 31)
    (st : RtcState) :
    (rtc_setTime c.year c.month c.day c.hour c.minute c.second 0 st).2.offset_for_32bit
      = datetime_to_timestamp c.year 1 1 0 0 0 ∧
    (rtc_setTime c.year c.month c.day c.hour c.minute c.second 0 st).2.counter
      = datetime_to_timestamp c.year c.month c.day c.hour c.minute c.second
        - datetime_to_timestamp c.year 1 1 0 0 0 ∧
    (rtc_setTime c.year c.month c.day c.hour c.minute c.second 0 st).2.counter < 366 * 86400 ∧
    366 * 86400 = 31622400 ∧
    (∀ n : Nat, n < 2 ^ 32 - 31622400 →
      RTC_GetCounter (ticks n (rtc_setTime c.year c.month c.day c.hour c.minute c.second 0 st).2)
        = (rtc_setTime c.year c.month c.day c.hour c.minute c.second 0 st).2.counter + n) ∧
    135 * 31557600 < 2 ^ 32 - 31622400 := by
  obtain ⟨T, hT, hsum, hset⟩ := rtc_setTime_zero c hv hint st
  rw [hset]
  refine ⟨rfl, ?_, hT, by decide, fun n hn => ?_, by decide⟩
  · show T = _
    rw [hsum, Nat.add_sub_cancel_left]
  · rw [(ticks_spec n _).1]
    show (T + n) % 2 ^ 32 = T + n
    exact Nat.mod_eq_of_lt (by omega)

/-- C17, at 2024-12-31 23:59:59, the last second of a leap year. -/
theorem counter_written_witness :
    ValidDateTime ⟨2024, 12, 31, 23, 59, 59⟩ ∧ (2024 : Int) < 2 ^ 31 ∧
    (rtc_setTime 2024 12 31 23 59 59 0 ⟨0, 32767, 0xA5A5, 0⟩).2.offset_for_32bit
      = datetime_to_timestamp 2024 1 1 0 0 0 ∧
    (rtc_setTime 2024 12 31 23 59 59 0 ⟨0, 32767, 0xA5A5, 0⟩).2.counter
      = datetime_to_timestamp 2024 12 31 23 59 59 - datetime_to_timestamp 2024 1 1 0 0 0 ∧
    (rtc_setTime 2024 12 31 23 59 59 0 ⟨0, 32767, 0xA5A5, 0⟩).2.counter < 366 * 86400 :=
  ⟨by unfold ValidDateTime; decide, by decide,
   by
    set_option maxRecDepth 100000 in
    exact ⟨(counter_written ⟨2024, 12, 31, 23, 59, 59⟩ (by unfold ValidDateTime; decide)
      (by decide) ⟨0, 32767, 0xA5A5, 0⟩).1,
     (counter_written ⟨2024, 12, 31, 23, 59, 59⟩ (by unfold ValidDateTime; decide)
      (by decide) ⟨0, 32767, 0xA5A5, 0⟩).2.1,
     (counter_written ⟨2024, 12, 31, 23, 59, 59⟩ (by unfold ValidDateTime; decide)
      (by decide) ⟨0, 32767, 0xA5A5, 0⟩).2.2.1⟩⟩

/-- The forward conversion is affine in day, hour, minute and second, also
outside the calendar range. -/
theorem datetime_to_timestamp_affine (n m d h mi s : Nat) (hn : 1970 + n < 2 ^ 31)
    (hm1 : 1 ≤ m) (hm2 : m ≤ 12) (hd1 : 1 ≤ d) (hd2 : d < 2 ^ 31)
    (hh : h < 2 ^ 16) (hmi : mi < 2 ^ 16) (hs : s < 2 ^ 16) :
    datetime_to_timestamp (1970 + (n : Int)) m d h mi s
      = datetime_to_timestamp (1970 + (n : Int)) m 1 0 0 0
        + ((d - 1) * 86400 + h * 3600 + mi * 60 + s) := by
  have e1 := datetime_to_timestamp_eq n m d h mi s hn hm1 hm2 hd1 hd2 (by omega) (by omega)
    (by omega)
  have e0 := datetime_to_timestamp_eq n m 1 0 0 0 hn hm1 hm2 (le_refl _) (by omega) (by omega)
    (by omega) (by omega)
  simp only [Nat.cast_one, Nat.cast_zero] at e0
  have key : ∀ A B : Nat,
      A = (daysBeforeYear n + daysBeforeMonth (1970 + (n : Int)) m + (d - 1)) * 86400
        + h * 3600 + mi * 60 + s →
      B = (daysBeforeYear n + daysBeforeMonth (1970 + (n : Int)) m + (1 - 1)) * 86400
        + 0 * 3600 + 0 * 60 + 0 →
      A = B + ((d - 1) * 86400 + h * 3600 + mi * 60 + s) := by
    intro A B hA hB
    subst hA; subst hB
    omega
  exact key _ _ e1 e0


/-- Hour 24 of a day is hour 0 of the next day. -/
theorem hour_24_next_day (n m d : Nat) (hn : 1970 + n < 2 ^ 31) (hm1 : 1 ≤ m) (hm2 : m ≤ 12)
    (hd1 : 1 ≤ d) (hd2 : d + 1 < 2 ^ 31) :
    datetime_to_timestamp (1970 + (n : Int)) m d 24 0 0
      = datetime_to_timestamp (1970 + (n : Int)) m ((d : Int) + 1) 0 0 0 := by
  have e1 := datetime_to_timestamp_eq n m d 24 0 0 hn hm1 hm2 hd1 (by omega) (by omega)
    (by omega) (by omega)
  have e2 := datetime_to_timestamp_eq n m (d + 1) 0 0 0 hn hm1 hm2 (by omega) (by omega)
    (by omega) (by omega) (by omega)
  simp only [Nat.cast_ofNat, Nat.cast_zero, Nat.cast_add, Nat.cast_one] at e1 e2
  exact e1.trans (Eq.trans (by omega) e2.symm)

/-- C18. Out-of-range inputs are accepted and stay arithmetically consistent:
for every `int` year from 1970 on, month in 1..12, `int` day at least 1 and
hour, minute, second from 0 to below `2^16` (in calendar range or not),
`datetime_to_timestamp y m d h mi s = datetime_to_timestamp y m 1 0 0 0
+ (d-1)*86400 + h*3600 + mi*60 + s`; so 2025-02-29 is 2025-03-01, and hour 24
is hour 0 of the next day. -/
theorem out_of_range_consistent (y m d h mi s : Int) (hy : 1970 ≤ y) (hint : y < 2 ^ 31)
    (hm1 : 1 ≤ m) (hm2 : m ≤ 12) (hd1 : 1 ≤ d) (hd2 : d < 2 ^ 31)
    (hh1 : 0 ≤ h) (hh2 : h < 2 ^ 16) (hmi1 : 0 ≤ mi) (hmi2 : mi < 2 ^ 16)
    (hs1 : 0 ≤ s) (hs2 : s < 2 ^ 16) :
    (datetime_to_timestamp y m d h mi s : Int)
      = datetime_to_timestamp y m 1 0 0 0 + (d - 1) * 86400 + h * 3600 + mi * 60 + s ∧
    datetime_to_timestamp 2025 2 29 0 0 0 = datetime_to_timestamp 2025 3 1 0 0 0 ∧
    (d + 1 < 2 ^ 31 →
      datetime_to_timestamp y m d 24 0 0 = datetime_to_timestamp y m (d + 1) 0 0 0) := by
  obtain ⟨n, rfl⟩ : ∃ n : Nat, y = 1970 + (n : Int) := ⟨(y - 1970).toNat, by omega⟩
  obtain ⟨m, rfl⟩ : ∃ k : Nat, m = (k : Int) := ⟨m.toNat, by omega⟩
  obtain ⟨d, rfl⟩ : ∃ k : Nat, d = (k : Int) := ⟨d.toNat, by omega⟩
  obtain ⟨h, rfl⟩ : ∃ k : Nat, h = (k : Int) := ⟨h.toNat, by omega⟩
  obtain ⟨mi, rfl⟩ : ∃ k : Nat, mi = (k : Int) := ⟨mi.toNat, by omega⟩
  obtain ⟨s, rfl⟩ : ∃ k : Nat, s = (k : Int) := ⟨s.toNat, by omega⟩
  have haff := datetime_to_timestamp_affine n m d h mi s (by omega) (by omega) (by omega)
    (by omega) (by omega) (by omega) (by omega) (by omega)
  refine ⟨?_, by set_option maxRecDepth 100000 in decide, fun hd3 => ?_⟩
  · have key : ∀ A B : Nat, A = B + ((d - 1) * 86400 + h * 3600 + mi * 60 + s) →
        (A : Int) = B + ((d : Int) - 1) * 86400 + (h : Int) * 3600 + (mi : Int) * 60 + s := by
      intro A B hAB
      omega
    exact key _ _ haff
  · exact hour_24_next_day n m d (by omega) (by omega) (by omega) (by omega) (by omega)

/-- C18, at 2025-02-30 25:61:61, out of range in day, hour, minute and second. -/
theorem out_of_range_consistent_witness :
    (datetime_to_timestamp 2025 2 30 25 61 61 : Int)
      = datetime_to_timestamp 2025 2 1 0 0 0 + (30 - 1) * 86400 + 25 * 3600 + 61 * 60 + 61 ∧
    datetime_to_timestamp 2025 2 29 0 0 0 = datetime_to_timestamp 2025 3 1 0 0 0 ∧
    ((30 : Int) + 1 < 2 ^ 31 →
      datetime_to_timestamp 2025 2 30 24 0 0 = datetime_to_timestamp 2025 2 (30 + 1) 0 0 0) :=
  out_of_range_consistent 2025 2 30 25 61 61 (by decide) (by decide) (by decide) (by decide)
    (by decide) (by decide) (by decide) (by decide) (by decide) (by decide) (by decide)
    (by decide)


/-! ## Termination of the inverse conversion -/

/-- The year loop stops within `days + 1` passes, whatever year it starts at and
also when the `int` year wraps, with fewer days left than the year it stops at has. -/
theorem yearLoop_terminates (fuel : Nat) : ∀ (y : Int) (days : Nat), days < fuel →
    ∃ (y2 : Int) (r : Nat), yearLoop fuel y days = some (y2, r) ∧ r < yearLength y2 := by
  induction fuel with
  | zero => intro y days h; omega
  | succ f ih =>
    intro y days h
    have hlen := yearLength_pos y
    rw [yearLoop]
    simp only [year_fold]
    by_cases hge : days ≥ yearLength y
    · rw [if_pos hge]
      exact ih (toI32 (y + 1)) (days - yearLength y) (by omega)
    · rw [if_neg hge]
      exact ⟨y, days, rfl, by omega⟩

/-- The month loop, entered with fewer days than the year has, leaves through
its `break`, at a month 1..12 and with fewer days left than that month has. -/
theorem monthLoop_breaks (y : Int) (r : Nat) (hr : r < yearLength y) :
    ∃ m d : Nat, monthLoop y 13 1 r = some ((m : Int), d) ∧ 1 ≤ m ∧ m ≤ 12 ∧
      d < daysInMonth y (m : Int) := by
  obtain ⟨m, d, hm1, hm2, hd, hsum⟩ := month_decomposition y r hr
  have hidx : 1 + (m - 1) = m := by omega
  have hmo := monthLoop_eq y (m - 1) 1 13 r d (by omega) (le_refl _) (by omega)
    (by rw [hidx, daysBeforeMonth_one]; omega) (by rw [hidx]; exact hd)
  rw [hidx] at hmo
  simp only [Nat.cast_one] at hmo
  exact ⟨m, d, hmo, hm1, hm2, hd⟩

/-- Every read of the month-length table by the month loop is at an index in `0..11`. -/
theorem monthLoopReads_in_table (y : Int) (fuel : Nat) : ∀ (m : Int) (days : Nat), 1 ≤ m →
    ∀ i ∈ monthLoopReads y fuel m days, 0 ≤ i ∧ i ≤ 11 := by
  induction fuel with
  | zero => intro m days _ i hi; simp [monthLoopReads] at hi
  | succ f ih =>
    intro m days hm i hi
    rw [monthLoopReads] at hi
    by_cases hg : m ≤ 12
    · rw [if_pos hg] at hi
      simp only at hi
      split_ifs at hi
      all_goals first
        | (rw [List.mem_singleton] at hi; omega)
        | (rcases List.mem_cons.mp hi with h | h
           · omega
           · exact ih (m + 1) _ (by omega) i h)
    · rw [if_neg hg] at hi
      simp at hi


/-- C19. Termination of the inverse conversion: for every timestamp `t` (so for
every 64-bit one) the year loop stops within the `t / 86400 + 1` passes it is
given, each pass either leaving the loop or going on with strictly fewer days;
the month loop then leaves through its `break`, at a month `m` in 1..12 with
`days < days-in-month`, where days-in-month is what the loop reads from the
table; every table read is at an index in `0..11`; and
`timestamp_to_datetime t` produces a result. -/
theorem inverse_conversion_terminates (t : Nat) :
    (∃ (y : Int) (r m d : Nat),
      yearLoop (t / 86400 + 1) 1970 (t / 86400) = some (y, r) ∧
      r < (if _is_leap y then 366 else 365) ∧
      monthLoop y 13 1 r = some ((m : Int), d) ∧ 1 ≤ m ∧ m ≤ 12 ∧
      d < (_days_in_month ((m : Int) - 1)
            + (if ((m : Int) == 2 && _is_leap y) then 1 else 0)) % 2 ^ 32 ∧
      (∀ i ∈ monthLoopReads y 13 1 r, 0 ≤ i ∧ i ≤ 11)) ∧
    (∀ (fuel : Nat) (y : Int) (days : Nat),
      yearLoop (fuel + 1) y days = some (y, days) ∨
      (yearLoop (fuel + 1) y days
          = yearLoop fuel (toI32 (y + 1)) (days - (if _is_leap y then 366 else 365)) ∧
        days - (if _is_leap y then 366 else 365) < days)) ∧
    (timestamp_to_datetime t).isSome = true := by
  obtain ⟨y, r, hy, hr⟩ := yearLoop_terminates (t / 86400 + 1) 1970 (t / 86400) (by omega)
  obtain ⟨m, d, hm, hm1, hm2, hd⟩ := monthLoop_breaks y r hr
  refine ⟨⟨y, r, m, d, hy, ?_, hm, hm1, hm2, ?_,
    monthLoopReads_in_table y 13 1 r (le_refl _)⟩, ?_, ?_⟩
  · rw [year_fold]; exact hr
  · rw [month_length_table y m hm1 hm2]; exact hd
  · intro fuel y2 days
    have hlen := yearLength_pos y2
    rw [yearLoop]
    simp only [year_fold]
    by_cases hge : days ≥ yearLength y2
    · right
      rw [if_pos hge]
      exact ⟨rfl, by omega⟩
    · left
      rw [if_neg hge]
  · unfold timestamp_to_datetime
    simp only [hy, hm, Option.isSome]

/-- The loop-based count of the days before year `1970 + n` agrees with the closed form. -/
theorem daysBeforeYear_closed (n : Nat) :
    (daysBeforeYear n : Int) = daysSince1970ClosedForm (1970 + (n : Int)) := by
  induction n with
  | zero => decide
  | succ n ih =>
    have hstep : (daysBeforeYear (n + 1) : Int)
        = daysBeforeYear n + yearLength (1970 + (n : Int)) := by
      simp only [daysBeforeYear, Nat.cast_add]
    rw [hstep, ih]
    unfold daysSince1970ClosedForm yearLength gregorianLeap
    by_cases h : (1970 + (n : Int)) % 4 = 0 ∧
        ((1970 + (n : Int)) % 100 ≠ 0 ∨ (1970 + (n : Int)) % 400 = 0)
    · rw [decide_eq_true h]
      simp only [if_true]
      push_cast
      omega
    · rw [decide_eq_false h]
      simp only [Bool.false_eq_true, if_false]
      push_cast
      omega

/-- C20. Closed form for the linear year sum: for every `int` year `y` from
1970 on, `_days_since_1970 y 1 1` equals
`365*(y - 1970) + (⌊(y-1)/4⌋ - ⌊(y-1)/100⌋ + ⌊(y-1)/400⌋) - 477`. -/
theorem days_since_1970_closed_form (y : Int) (hy : 1970 ≤ y) (hint : y < 2 ^ 31) :
    (_days_since_1970 y 1 1 : Int) = daysSince1970ClosedForm y := by
  obtain ⟨n, rfl⟩ : ∃ n : Nat, y = 1970 + (n : Int) := ⟨(y - 1970).toNat, by omega⟩
  have h := days_since_1970_eq n 1 1 (by omega) (le_refl _) (by omega) (le_refl _) (by omega)
  simp only [Nat.cast_one, daysBeforeMonth_one, Nat.sub_self, Nat.add_zero] at h
  rw [h]
  exact daysBeforeYear_closed n

/-- C20, at the year 2025: 20089 days. -/
theorem days_since_1970_closed_form_witness :
    (1970 : Int) ≤ 2025 ∧ (2025 : Int) < 2 ^ 31 ∧
    (_days_since_1970 2025 1 1 : Int) = daysSince1970ClosedForm 2025 ∧
    daysSince1970ClosedForm 2025 = 20089 :=
  ⟨by decide, by decide, days_since_1970_closed_form 2025 (by decide) (by decide), by decide⟩

end Rtc32
